import Mathlib

/-!
Verification of the node-graph layer of `src/graph/node.rs` (the effect graph:
nodes, directional slots, linking) together with the expression layer it feeds.

Identifiers (`NodeId`, `SlotId`) are `NonZeroU32` in the source; they are
modelled as `Nat` carrying the one-based value, so an id issued by the graph is
always at least 1 and the arena index is `id - 1`.  Panics (`assert!`,
out-of-range arena access) are modelled by `Except Graph Graph`: the `error`
payload is the graph state at the moment the panic fires, so the mutations
performed before a failed assertion stay observable.
-/

namespace Hanabi

/-- Modelled from the spec: value types of slots and expressions.  The
`ValueType` enum lives outside `src/`; the spec only needs named scalar and
vector types. -/
inductive ValueType where
  | Float
  | Vec2
  | Vec3
  | Vec4
  deriving DecidableEq

/-- Node slot direction (`SlotDir` in `src/graph/node.rs`). -/
inductive SlotDir where
  | Input
  | Output
  deriving DecidableEq

/-- Definition of a slot of a node (`SlotDef`). -/
structure SlotDef where
  name : String
  dir : SlotDir
  value_type : Option ValueType
  deriving DecidableEq

/-- `SlotDef::input`: create a new input slot definition. -/
def SlotDef.input (name : String) (value_type : Option ValueType) : SlotDef :=
  ⟨name, SlotDir.Input, value_type⟩

/-- `SlotDef::output`: create a new output slot definition. -/
def SlotDef.output (name : String) (value_type : Option ValueType) : SlotDef :=
  ⟨name, SlotDir.Output, value_type⟩

/-- Single slot of a node (`Slot`).  The field `def` of the source is spelled
`sdef` because `def` is a Lean keyword. -/
structure Slot where
  node_id : Nat
  id : Nat
  sdef : SlotDef
  linked_slots : List Nat
  deriving DecidableEq

/-- `Slot::new`. -/
def Slot.new (node_id : Nat) (slot_id : Nat) (slot_def : SlotDef) : Slot :=
  ⟨node_id, slot_id, slot_def, []⟩

/-- `Slot::dir`. -/
def Slot.dir (s : Slot) : SlotDir :=
  s.sdef.dir

/-- `Slot::is_input`. -/
def Slot.is_input (s : Slot) : Bool :=
  s.dir = SlotDir.Input

/-- `Slot::is_output`. -/
def Slot.is_output (s : Slot) : Bool :=
  s.dir = SlotDir.Output

/-- `Slot::link_to`: push the input id onto the fan-out list unless already
present.  `none` models the `assert!(self.is_output())` panic. -/
def Slot.link_to (s : Slot) (input : Nat) : Option Slot :=
  if s.is_output then
    some { s with linked_slots :=
      if input ∈ s.linked_slots then s.linked_slots else s.linked_slots ++ [input] }
  else none

/-- `Slot::unlink_from`: remove the first occurrence of the input id from the
fan-out list, reporting whether anything was removed.  `none` models the
`assert!(self.is_output())` panic. -/
def Slot.unlink_from (s : Slot) (input : Nat) : Option (Slot × Bool) :=
  if s.is_output then
    if input ∈ s.linked_slots then
      some ({ s with linked_slots := s.linked_slots.erase input }, true)
    else
      some (s, false)
  else none

/-- `Slot::link_input`: record the output id as the single source, replacing
slot 0 of the list when non-empty.  `none` models the `assert!(self.is_input())`
panic. -/
def Slot.link_input (s : Slot) (output : Nat) : Option Slot :=
  if s.is_input then
    some { s with linked_slots :=
      match s.linked_slots with
      | [] => [output]
      | _ :: t => output :: t }
  else none

/-- `Slot::unlink_input`: clear the link list.  `none` models the
`assert!(self.is_input())` panic. -/
def Slot.unlink_input (s : Slot) : Option Slot :=
  if s.is_input then some { s with linked_slots := [] } else none

/-- Modelled from the spec: a particle attribute, as provided by the attribute
registry (name plus value type); the `Attribute` type lives outside `src/`. -/
structure Attribute where
  name : String
  value_type : ValueType
  deriving DecidableEq

/-- Modelled from the spec: built-in operators naming system quantities
(elapsed time, frame delta time), each with a fixed value type; the
`BuiltInOperator` enum lives outside `src/`. -/
inductive BuiltInOperator where
  | Time
  | DeltaTime
  deriving DecidableEq

/-- Modelled from the spec: the registered name of a built-in operator. -/
def BuiltInOperator.name : BuiltInOperator → String
  | .Time => "time"
  | .DeltaTime => "delta_time"

/-- Modelled from the spec: the fixed value type of a built-in operator. -/
def BuiltInOperator.value_type : BuiltInOperator → ValueType
  | .Time => .Float
  | .DeltaTime => .Float

/-- Modelled from the spec: canonical rendered text of a built-in operator. -/
def BuiltInOperator.to_wgsl_string (op : BuiltInOperator) : String :=
  "sim_params." ++ op.name

/-- Modelled from the spec: unary numeric operators; only `Normalize` is used
by the code under `src/`. -/
inductive UnaryNumericOperator where
  | Normalize
  deriving DecidableEq

/-- Modelled from the spec: the expression layer (`graph/expr.rs` is not under
`src/`).  Expressions are immutable once created and handles reference them
without ownership, so `Handle<Expr>` is modelled as the expression tree itself.
Constructor names follow the concrete types used by `node.rs`: `LiteralExpr`,
`AttributeExpr`, `BuiltInExpr`, `AddExpr`, `SubExpr`, `MulExpr`, `DivExpr`,
`UnaryNumericOpExpr`. -/
inductive Expr where
  | LiteralExpr (text : String)
  | AttributeExpr (attr : Attribute)
  | BuiltInExpr (op : BuiltInOperator)
  | AddExpr (lhs rhs : Expr)
  | SubExpr (lhs rhs : Expr)
  | MulExpr (lhs rhs : Expr)
  | DivExpr (lhs rhs : Expr)
  | UnaryNumericOpExpr (operand : Expr) (op : UnaryNumericOperator)
  deriving DecidableEq

/-- Modelled from the spec: rendering of an expression to shader-language
text; purely textual substitution of already-rendered child text into the
operator template, never numeric folding.  A binary operation renders as the
parenthesised children joined by the operator; an attribute read renders as
the particle field access; normalize renders as a function call. -/
def Expr.to_wgsl_string : Expr → String
  | .LiteralExpr text => text
  | .AttributeExpr attr => "particle." ++ attr.name
  | .BuiltInExpr op => op.to_wgsl_string
  | .AddExpr lhs rhs =>
      "(" ++ lhs.to_wgsl_string ++ ") + (" ++ rhs.to_wgsl_string ++ ")"
  | .SubExpr lhs rhs =>
      "(" ++ lhs.to_wgsl_string ++ ") - (" ++ rhs.to_wgsl_string ++ ")"
  | .MulExpr lhs rhs =>
      "(" ++ lhs.to_wgsl_string ++ ") * (" ++ rhs.to_wgsl_string ++ ")"
  | .DivExpr lhs rhs =>
      "(" ++ lhs.to_wgsl_string ++ ") / (" ++ rhs.to_wgsl_string ++ ")"
  | .UnaryNumericOpExpr operand .Normalize =>
      "normalize(" ++ operand.to_wgsl_string ++ ")"

/-- Error raised during evaluation (`ExprError`); only the `GraphEvalError`
variant is produced by the code under `src/`. -/
inductive ExprError where
  | GraphEvalError (msg : String)
  deriving DecidableEq

/-- Graph node to add two values (`AddNode`). -/
structure AddNode where
  slots : List SlotDef
  deriving DecidableEq

/-- `AddNode::new`. -/
def AddNode.new : AddNode :=
  ⟨[SlotDef.input "lhs" none, SlotDef.input "rhs" none, SlotDef.output "result" none]⟩

/-- `AddNode::eval` (`Node` impl). -/
def AddNode.eval (_n : AddNode) (inputs : List Expr) : Except ExprError (List Expr) :=
  match inputs with
  | [lhs, rhs] => .ok [Expr.AddExpr lhs rhs]
  | _ => .error (.GraphEvalError
      ("Unexpected input count to AddNode::eval(): expected 2, got " ++ toString inputs.length))

/-- Graph node to subtract two values (`SubNode`). -/
structure SubNode where
  slots : List SlotDef
  deriving DecidableEq

/-- `SubNode::new`. -/
def SubNode.new : SubNode :=
  ⟨[SlotDef.input "lhs" none, SlotDef.input "rhs" none, SlotDef.output "result" none]⟩

/-- `SubNode::eval` (`Node` impl). -/
def SubNode.eval (_n : SubNode) (inputs : List Expr) : Except ExprError (List Expr) :=
  match inputs with
  | [lhs, rhs] => .ok [Expr.SubExpr lhs rhs]
  | _ => .error (.GraphEvalError
      ("Unexpected input count to SubNode::eval(): expected 2, got " ++ toString inputs.length))

/-- Graph node to multiply two values (`MulNode`). -/
structure MulNode where
  slots : List SlotDef
  deriving DecidableEq

/-- `MulNode::new`. -/
def MulNode.new : MulNode :=
  ⟨[SlotDef.input "lhs" none, SlotDef.input "rhs" none, SlotDef.output "result" none]⟩

/-- `MulNode::eval` (`Node` impl). -/
def MulNode.eval (_n : MulNode) (inputs : List Expr) : Except ExprError (List Expr) :=
  match inputs with
  | [lhs, rhs] => .ok [Expr.MulExpr lhs rhs]
  | _ => .error (.GraphEvalError
      ("Unexpected input count to MulNode::eval(): expected 2, got " ++ toString inputs.length))

/-- Graph node to divide two values (`DivNode`). -/
structure DivNode where
  slots : List SlotDef
  deriving DecidableEq

/-- `DivNode::new`. -/
def DivNode.new : DivNode :=
  ⟨[SlotDef.input "lhs" none, SlotDef.input "rhs" none, SlotDef.output "result" none]⟩

/-- `DivNode::eval` (`Node` impl). -/
def DivNode.eval (_n : DivNode) (inputs : List Expr) : Except ExprError (List Expr) :=
  match inputs with
  | [lhs, rhs] => .ok [Expr.DivExpr lhs rhs]
  | _ => .error (.GraphEvalError
      ("Unexpected input count to DivNode::eval(): expected 2, got " ++ toString inputs.length))

/-- Graph node to get any single particle attribute (`AttributeNode`). -/
structure AttributeNode where
  attr : Attribute
  slots : List SlotDef
  deriving DecidableEq

/-- `AttributeNode::new`. -/
def AttributeNode.new (attr : Attribute) : AttributeNode :=
  ⟨attr, [SlotDef.output attr.name (some attr.value_type)]⟩

/-- `AttributeNode::eval` (`Node` impl). -/
def AttributeNode.eval (n : AttributeNode) (inputs : List Expr) : Except ExprError (List Expr) :=
  match inputs with
  | [] => .ok [Expr.AttributeExpr n.attr]
  | _ => .error (.GraphEvalError "Unexpected non-empty input to AttributeNode::eval().")

/-- Graph node to get time values (`TimeNode`). -/
structure TimeNode where
  slots : List SlotDef
  deriving DecidableEq

/-- `TimeNode::new`. -/
def TimeNode.new : TimeNode :=
  ⟨[BuiltInOperator.Time, BuiltInOperator.DeltaTime].map fun op =>
    SlotDef.output op.name (some op.value_type)⟩

/-- `TimeNode::eval` (`Node` impl). -/
def TimeNode.eval (_n : TimeNode) (inputs : List Expr) : Except ExprError (List Expr) :=
  match inputs with
  | [] => .ok ([BuiltInOperator.Time, BuiltInOperator.DeltaTime].map Expr.BuiltInExpr)
  | _ => .error (.GraphEvalError "Unexpected non-empty input to TimeNode::eval().")

/-- Graph node to normalize a vector value (`NormalizeNode`). -/
structure NormalizeNode where
  slots : List SlotDef
  deriving DecidableEq

/-- `NormalizeNode::new`.  Note: the source constructs BOTH slot definitions
with `SlotDef::output`, including the slot named "in". -/
def NormalizeNode.new : NormalizeNode :=
  ⟨[SlotDef.output "in" none, SlotDef.output "out" none]⟩

/-- `NormalizeNode::eval` (`Node` impl). -/
def NormalizeNode.eval (_n : NormalizeNode) (inputs : List Expr) : Except ExprError (List Expr) :=
  match inputs with
  | [input] => .ok [Expr.UnaryNumericOpExpr input .Normalize]
  | _ => .error (.GraphEvalError
      "Unexpected input slot count to NormalizeNode::eval() not equal to one.")

/-- Closed sum of the concrete `Node` trait implementors of
`src/graph/node.rs`, standing in for `Box<dyn Node>` in the graph. -/
inductive GNode where
  | add (n : AddNode)
  | sub (n : SubNode)
  | mul (n : MulNode)
  | div (n : DivNode)
  | attribute (n : AttributeNode)
  | time (n : TimeNode)
  | normalize (n : NormalizeNode)
  deriving DecidableEq

/-- `Node::slots` dispatch. -/
def GNode.slots : GNode → List SlotDef
  | .add n => n.slots
  | .sub n => n.slots
  | .mul n => n.slots
  | .div n => n.slots
  | .attribute n => n.slots
  | .time n => n.slots
  | .normalize n => n.slots

/-- `Node::eval` dispatch. -/
def GNode.eval : GNode → List Expr → Except ExprError (List Expr)
  | .add n, inputs => n.eval inputs
  | .sub n, inputs => n.eval inputs
  | .mul n, inputs => n.eval inputs
  | .div n, inputs => n.eval inputs
  | .attribute n, inputs => n.eval inputs
  | .time n, inputs => n.eval inputs
  | .normalize n, inputs => n.eval inputs

/-- Effect graph (`Graph`): two flat arenas, one of nodes, one of slots. -/
structure Graph where
  nodes : List GNode
  slots : List Slot
  deriving DecidableEq

/-- `Graph::new`. -/
def Graph.new : Graph :=
  ⟨[], []⟩

/-- The body of the slot-allocation loop of `Graph::add_node`: for each slot
definition in order, push a slot whose one-based id is the current arena
length plus one. -/
def addSlotsLoop (node_id : Nat) (defs : List SlotDef) (slots : List Slot) : List Slot :=
  match defs with
  | [] => slots
  | d :: rest => addSlotsLoop node_id rest (slots ++ [Slot.new node_id (slots.length + 1) d])

/-- `Graph::add_node`: allocate the one-based node id, append one slot per
declared slot definition, store the node, return the id. -/
def Graph.add_node (g : Graph) (node : GNode) : Nat × Graph :=
  let node_id := g.nodes.length + 1
  let slots := addSlotsLoop node_id node.slots g.slots
  (node_id, ⟨g.nodes ++ [node], slots⟩)

/-- `Graph::link`.  Mirrors the statement order of the source: fetch and check
the output slot, update its fan-out through `Slot::link_to`, and only then
fetch and check the input slot and update it through `Slot::link_input`.  An
`error` result carries the graph state at the moment the corresponding
assertion panics. -/
def Graph.link (g : Graph) (output input : Nat) : Except Graph Graph :=
  if ho : output - 1 < g.slots.length then
    let out_slot := g.slots.get ⟨output - 1, ho⟩
    if out_slot.is_output then
      match out_slot.link_to input with
      | some out_slot2 =>
        let g1 : Graph := ⟨g.nodes, g.slots.set (output - 1) out_slot2⟩
        if hi : input - 1 < g1.slots.length then
          let in_slot := g1.slots.get ⟨input - 1, hi⟩
          if in_slot.is_input then
            match in_slot.link_input output with
            | some in_slot2 => .ok ⟨g1.nodes, g1.slots.set (input - 1) in_slot2⟩
            | none => .error g1
          else .error g1
        else .error g1
      | none => .error g
    else .error g
  else .error g

/-- `Graph::unlink`: remove the pair through `Slot::unlink_from`; only when
something was removed, clear the input side through `Slot::unlink_input`. -/
def Graph.unlink (g : Graph) (output input : Nat) : Except Graph Graph :=
  if ho : output - 1 < g.slots.length then
    let out_slot := g.slots.get ⟨output - 1, ho⟩
    if out_slot.is_output then
      match out_slot.unlink_from input with
      | some (out_slot2, removed) =>
        let g1 : Graph := ⟨g.nodes, g.slots.set (output - 1) out_slot2⟩
        if removed then
          if hi : input - 1 < g1.slots.length then
            let in_slot := g1.slots.get ⟨input - 1, hi⟩
            if in_slot.is_input then
              match in_slot.unlink_input with
              | some in_slot2 => .ok ⟨g1.nodes, g1.slots.set (input - 1) in_slot2⟩
              | none => .error g1
            else .error g1
          else .error g1
        else .ok g1
      | none => .error g
    else .error g
  else .error g

/-- The loop of `Graph::unlink_all` over the taken list of remote slot ids:
an input remote slot gets its single link cleared, an output remote slot gets
the original slot id removed from its fan-out. -/
def Graph.unlink_all_loop (g : Graph) (slot_id : Nat) : List Nat → Except Graph Graph
  | [] => .ok g
  | remote_id :: rest =>
    if hr : remote_id - 1 < g.slots.length then
      let remote_slot := g.slots.get ⟨remote_id - 1, hr⟩
      if remote_slot.is_input then
        match remote_slot.unlink_input with
        | some r2 =>
            Graph.unlink_all_loop ⟨g.nodes, g.slots.set (remote_id - 1) r2⟩ slot_id rest
        | none => .error g
      else
        match remote_slot.unlink_from slot_id with
        | some (r2, _) =>
            Graph.unlink_all_loop ⟨g.nodes, g.slots.set (remote_id - 1) r2⟩ slot_id rest
        | none => .error g
    else .error g

/-- `Graph::unlink_all`: take (clear) the slot's own link list, then notify
each formerly linked remote slot. -/
def Graph.unlink_all (g : Graph) (slot_id : Nat) : Except Graph Graph :=
  if hs : slot_id - 1 < g.slots.length then
    let slot := g.slots.get ⟨slot_id - 1, hs⟩
    let taken := slot.linked_slots
    Graph.unlink_all_loop ⟨g.nodes, g.slots.set (slot_id - 1) { slot with linked_slots := [] }⟩
      slot_id taken
  else .error g

/-- `Graph::slots(node_id)`: all slot ids of a node, in arena order.  Named
`node_slots` because the field accessor `Graph.slots` takes the Rust method's
name. -/
def Graph.node_slots (g : Graph) (node_id : Nat) : List Nat :=
  g.slots.filterMap fun s => if s.node_id = node_id then some s.id else none

/-- `Graph::input_slots`. -/
def Graph.input_slots (g : Graph) (node_id : Nat) : List Nat :=
  g.slots.filterMap fun s =>
    if s.node_id = node_id ∧ s.is_input then some s.id else none

/-- `Graph::output_slots`. -/
def Graph.output_slots (g : Graph) (node_id : Nat) : List Nat :=
  g.slots.filterMap fun s =>
    if s.node_id = node_id ∧ s.is_output then some s.id else none

/-- Observation helper: link list of the slot with the given one-based id
(empty when the id is out of range). -/
def Graph.linked_of (g : Graph) (slot_id : Nat) : List Nat :=
  match g.slots.get? (slot_id - 1) with
  | some s => s.linked_slots
  | none => []

/-- Observation helper: direction of the slot with the given one-based id. -/
def Graph.slot_dir (g : Graph) (slot_id : Nat) : Option SlotDir :=
  (g.slots.get? (slot_id - 1)).map Slot.dir

/-- The slots allocated for one node by `Graph::add_node`, described directly:
one slot per definition, with consecutive one-based ids starting at
`base + 1`. -/
def mkSlots (node_id : Nat) (base : Nat) : List SlotDef → List Slot
  | [] => []
  | d :: rest => Slot.new node_id (base + 1) d :: mkSlots node_id (base + 1) rest

/-- The consecutive one-based slot ids `base + 1, ..., base + defs.length`
handed out for a declaration list. -/
def declared_ids (base : Nat) : List SlotDef → List Nat
  | [] => []
  | _ :: rest => (base + 1) :: declared_ids (base + 1) rest

/-- The slot ids handed out for the declarations of one direction, in
declaration order. -/
def declared_ids_of_dir (base : Nat) (dir : SlotDir) : List SlotDef → List Nat
  | [] => []
  | d :: rest =>
    if d.dir = dir then (base + 1) :: declared_ids_of_dir (base + 1) dir rest
    else declared_ids_of_dir (base + 1) dir rest

/-- Pure description of the fan-out update done by `Slot::link_to`. -/
def linkToSlot (s : Slot) (input : Nat) : Slot :=
  { s with linked_slots :=
      if input ∈ s.linked_slots then s.linked_slots else s.linked_slots ++ [input] }

/-- Pure description of the source update done by `Slot::link_input`. -/
def linkInputSlot (s : Slot) (output : Nat) : Slot :=
  { s with linked_slots :=
      match s.linked_slots with
      | [] => [output]
      | _ :: t => output :: t }

/-- Pure description of the update done by `Slot::unlink_from` on a hit. -/
def eraseSlot (s : Slot) (input : Nat) : Slot :=
  { s with linked_slots := s.linked_slots.erase input }

/-- Pure description of the update done by `Slot::unlink_input`. -/
def clearSlot (s : Slot) : Slot :=
  { s with linked_slots := [] }

/-- `NodeId::index`: zero-based index of a one-based node id. -/
def NodeId.index (id : Nat) : Nat := id - 1

/-- `SlotId::index`: zero-based index of a one-based slot id. -/
def SlotId.index (id : Nat) : Nat := id - 1

/-- Example graph holding one `AddNode`: slots 1, 2 are inputs, slot 3 is the
output. -/
def exGraph0 : Graph := (Graph.new.add_node (GNode.add AddNode.new)).2

/-- Example graph holding two `AddNode`s: slots 1, 2, 4, 5 are inputs,
slots 3, 6 are outputs. -/
def exGraph1 : Graph := (exGraph0.add_node (GNode.add AddNode.new)).2

/-- `exGraph1` after `link(3, 1)`. -/
def c1g3 : Graph := match exGraph1.link 3 1 with | .ok g => g | .error g => g

/-- `c1g3` after the rewiring call `link(6, 1)`. -/
def c1g4 : Graph := match c1g3.link 6 1 with | .ok g => g | .error g => g

/-- The graph state at the panic point of `link(3, 6)` on `exGraph1`
(slot 6 is an output, not an input). -/
def c4err : Graph := match exGraph1.link 3 6 with | .ok g => g | .error g => g

@[simp] lemma linkToSlot_id (s : Slot) (i : Nat) : (linkToSlot s i).id = s.id := rfl

@[simp] lemma linkToSlot_node_id (s : Slot) (i : Nat) : (linkToSlot s i).node_id = s.node_id := rfl

@[simp] lemma linkToSlot_sdef (s : Slot) (i : Nat) : (linkToSlot s i).sdef = s.sdef := rfl

@[simp] lemma linkToSlot_dir (s : Slot) (i : Nat) : (linkToSlot s i).dir = s.dir := rfl

@[simp] lemma linkInputSlot_id (s : Slot) (o : Nat) : (linkInputSlot s o).id = s.id := rfl

@[simp] lemma linkInputSlot_node_id (s : Slot) (o : Nat) :
    (linkInputSlot s o).node_id = s.node_id := rfl

@[simp] lemma linkInputSlot_sdef (s : Slot) (o : Nat) : (linkInputSlot s o).sdef = s.sdef := rfl

@[simp] lemma linkInputSlot_dir (s : Slot) (o : Nat) : (linkInputSlot s o).dir = s.dir := rfl

@[simp] lemma eraseSlot_id (s : Slot) (i : Nat) : (eraseSlot s i).id = s.id := rfl

@[simp] lemma eraseSlot_node_id (s : Slot) (i : Nat) : (eraseSlot s i).node_id = s.node_id := rfl

@[simp] lemma eraseSlot_sdef (s : Slot) (i : Nat) : (eraseSlot s i).sdef = s.sdef := rfl

@[simp] lemma eraseSlot_dir (s : Slot) (i : Nat) : (eraseSlot s i).dir = s.dir := rfl

@[simp] lemma clearSlot_id (s : Slot) : (clearSlot s).id = s.id := rfl

@[simp] lemma clearSlot_node_id (s : Slot) : (clearSlot s).node_id = s.node_id := rfl

@[simp] lemma clearSlot_sdef (s : Slot) : (clearSlot s).sdef = s.sdef := rfl

@[simp] lemma clearSlot_dir (s : Slot) : (clearSlot s).dir = s.dir := rfl

@[simp] lemma clearSlot_linked (s : Slot) : (clearSlot s).linked_slots = [] := rfl

lemma is_output_iff (s : Slot) : s.is_output = true ↔ s.dir = SlotDir.Output := by
  simp [Slot.is_output]

lemma is_input_iff (s : Slot) : s.is_input = true ↔ s.dir = SlotDir.Input := by
  simp [Slot.is_input]

lemma not_is_input_iff (s : Slot) : s.is_input = false ↔ s.dir = SlotDir.Output := by
  cases h : s.dir <;> simp [Slot.is_input, h]

lemma not_is_output_iff (s : Slot) : s.is_output = false ↔ s.dir = SlotDir.Input := by
  cases h : s.dir <;> simp [Slot.is_output, h]

lemma link_to_eq (s : Slot) (i : Nat) (h : s.dir = SlotDir.Output) :
    s.link_to i = some (linkToSlot s i) := by
  simp [Slot.link_to, (is_output_iff s).2 h, linkToSlot]

lemma link_input_eq (s : Slot) (o : Nat) (h : s.dir = SlotDir.Input) :
    s.link_input o = some (linkInputSlot s o) := by
  simp [Slot.link_input, (is_input_iff s).2 h, linkInputSlot]

lemma unlink_from_eq_hit (s : Slot) (i : Nat) (h : s.dir = SlotDir.Output)
    (hm : i ∈ s.linked_slots) :
    s.unlink_from i = some (eraseSlot s i, true) := by
  simp [Slot.unlink_from, (is_output_iff s).2 h, hm, eraseSlot]

lemma unlink_from_eq_miss (s : Slot) (i : Nat) (h : s.dir = SlotDir.Output)
    (hm : i ∉ s.linked_slots) :
    s.unlink_from i = some (s, false) := by
  simp [Slot.unlink_from, (is_output_iff s).2 h, hm]

lemma unlink_input_eq (s : Slot) (h : s.dir = SlotDir.Input) :
    s.unlink_input = some (clearSlot s) := by
  simp [Slot.unlink_input, (is_input_iff s).2 h, clearSlot]

lemma set_get_self {α : Type _} (l : List α) (i : Nat) (h : i < l.length) :
    l.set i (l.get ⟨i, h⟩) = l := by
  apply List.ext_getElem
  · simp
  · intro j h1 h2
    by_cases hij : i = j
    · subst hij
      simp
    · simp [List.getElem_set_ne hij]

lemma addSlotsLoop_eq (node_id : Nat) (defs : List SlotDef) (slots : List Slot) :
    addSlotsLoop node_id defs slots = slots ++ mkSlots node_id slots.length defs := by
  induction defs generalizing slots with
  | nil => simp [addSlotsLoop, mkSlots]
  | cons d rest ih =>
    simp only [addSlotsLoop, mkSlots, ih, List.length_append, List.length_cons,
      List.length_nil, List.append_assoc, List.singleton_append]

lemma mkSlots_length (node_id base : Nat) (defs : List SlotDef) :
    (mkSlots node_id base defs).length = defs.length := by
  induction defs generalizing base with
  | nil => rfl
  | cons d rest ih => simp [mkSlots, ih]

lemma mkSlots_mem (node_id base : Nat) (defs : List SlotDef) (s : Slot)
    (h : s ∈ mkSlots node_id base defs) :
    s.node_id = node_id ∧ s.linked_slots = [] ∧ base + 1 ≤ s.id := by
  induction defs generalizing base with
  | nil => simp [mkSlots] at h
  | cons d rest ih =>
    simp only [mkSlots, List.mem_cons] at h
    rcases h with h | h
    · subst h
      exact ⟨rfl, rfl, Nat.le_refl _⟩
    · rcases ih (base + 1) h with ⟨h1, h2, h3⟩
      exact ⟨h1, h2, Nat.le_of_succ_le (by omega)⟩

lemma mkSlots_getElem (node_id base : Nat) (defs : List SlotDef) (j : Nat)
    (hj : j < defs.length) (hj2 : j < (mkSlots node_id base defs).length) :
    (mkSlots node_id base defs).get ⟨j, hj2⟩ =
      Slot.new node_id (base + 1 + j) (defs.get ⟨j, hj⟩) := by
  induction defs generalizing base j with
  | nil => simp at hj
  | cons d rest ih =>
    cases j with
    | zero => rfl
    | succ k =>
      simp only [mkSlots, List.get_eq_getElem, List.getElem_cons_succ]
      have hk : k < rest.length := by simpa using hj
      have hk2 : k < (mkSlots node_id (base + 1) rest).length := by
        rw [mkSlots_length]; exact hk
      have := ih (base + 1) k hk hk2
      simp only [List.get_eq_getElem] at this
      rw [this]
      congr 1
      omega

lemma mkSlots_map_id (node_id base : Nat) (defs : List SlotDef) :
    (mkSlots node_id base defs).map Slot.id = declared_ids base defs := by
  induction defs generalizing base with
  | nil => rfl
  | cons d rest ih => simp [mkSlots, declared_ids, Slot.new, ih]

lemma mkSlots_map_sdef (node_id base : Nat) (defs : List SlotDef) :
    (mkSlots node_id base defs).map Slot.sdef = defs := by
  induction defs generalizing base with
  | nil => rfl
  | cons d rest ih => simp [mkSlots, Slot.new, ih]

lemma mkSlots_map_node_id (node_id base : Nat) (defs : List SlotDef) :
    (mkSlots node_id base defs).map Slot.node_id = defs.map fun _ => node_id := by
  induction defs generalizing base with
  | nil => rfl
  | cons d rest ih => simp [mkSlots, Slot.new, ih]

lemma mkSlots_map_linked (node_id base : Nat) (defs : List SlotDef) :
    (mkSlots node_id base defs).map Slot.linked_slots = defs.map fun _ => ([] : List Nat) := by
  induction defs generalizing base with
  | nil => rfl
  | cons d rest ih => simp [mkSlots, Slot.new, ih]

lemma declared_ids_eq_range (base : Nat) (defs : List SlotDef) :
    declared_ids base defs = (List.range defs.length).map fun j => base + 1 + j := by
  induction defs generalizing base with
  | nil => rfl
  | cons d rest ih =>
    simp only [declared_ids, List.length_cons, List.range_succ_eq_map, List.map_cons,
      List.map_map, ih]
    refine List.cons_eq_cons.mpr ⟨by omega, ?_⟩
    apply List.map_congr_left
    intro a _
    simp only [Function.comp_apply]
    omega

lemma filterMap_none {α β : Type _} (f : α → Option β) (l : List α)
    (h : ∀ a ∈ l, f a = none) : l.filterMap f = [] := by
  induction l with
  | nil => rfl
  | cons a t ih =>
    simp only [List.filterMap_cons, h a (by simp)]
    exact ih fun x hx => h x (by simp [hx])

lemma mkSlots_filterMap_node (node_id base : Nat) (defs : List SlotDef) :
    ((mkSlots node_id base defs).filterMap fun s =>
      if s.node_id = node_id then some s.id else none) = declared_ids base defs := by
  induction defs generalizing base with
  | nil => rfl
  | cons d rest ih =>
    simp [mkSlots, declared_ids, Slot.new, List.filterMap_cons, ih]

lemma mkSlots_filterMap_input (node_id base : Nat) (defs : List SlotDef) :
    ((mkSlots node_id base defs).filterMap fun s =>
      if s.node_id = node_id ∧ s.is_input then some s.id else none) =
      declared_ids_of_dir base SlotDir.Input defs := by
  induction defs generalizing base with
  | nil => rfl
  | cons d rest ih =>
    by_cases hd : d.dir = SlotDir.Input
    · simp only [mkSlots, declared_ids_of_dir, List.filterMap_cons, Slot.new, Slot.is_input,
        Slot.dir, hd, if_pos, decide_eq_true_eq, and_true, if_pos rfl]
      simpa [Slot.is_input, Slot.dir] using ih (base + 1)
    · simp only [mkSlots, declared_ids_of_dir, List.filterMap_cons, Slot.new, Slot.is_input,
        Slot.dir, hd, decide_eq_true_eq]
      simpa [Slot.is_input, Slot.dir, hd] using ih (base + 1)

lemma mkSlots_filterMap_output (node_id base : Nat) (defs : List SlotDef) :
    ((mkSlots node_id base defs).filterMap fun s =>
      if s.node_id = node_id ∧ s.is_output then some s.id else none) =
      declared_ids_of_dir base SlotDir.Output defs := by
  induction defs generalizing base with
  | nil => rfl
  | cons d rest ih =>
    by_cases hd : d.dir = SlotDir.Output
    · simp only [mkSlots, declared_ids_of_dir, List.filterMap_cons, Slot.new, Slot.is_output,
        Slot.dir, hd, if_pos, decide_eq_true_eq, and_true, if_pos rfl]
      simpa [Slot.is_output, Slot.dir] using ih (base + 1)
    · simp only [mkSlots, declared_ids_of_dir, List.filterMap_cons, Slot.new, Slot.is_output,
        Slot.dir, hd, decide_eq_true_eq]
      simpa [Slot.is_output, Slot.dir, hd] using ih (base + 1)

/-- Structural well-formedness of a graph state: slot ids are dense and
one-based; every slot's owner exists; an input slot records at most one
source, every recorded source is a valid output slot whose fan-out lists the
input back; every output slot's fan-out is duplicate-free and lists only
valid input slots. -/
structure WF (g : Graph) : Prop where
  ids : ∀ (j : Nat) (s : Slot), g.slots.get? j = some s → s.id = j + 1
  owner : ∀ (j : Nat) (s : Slot), g.slots.get? j = some s → s.node_id ≤ g.nodes.length
  inputs_card : ∀ (j : Nat) (s : Slot), g.slots.get? j = some s → s.dir = SlotDir.Input →
    s.linked_slots.length ≤ 1
  inputs_src : ∀ (j : Nat) (s : Slot), g.slots.get? j = some s → s.dir = SlotDir.Input →
    ∀ o ∈ s.linked_slots, 1 ≤ o ∧ ∃ t : Slot, g.slots.get? (o - 1) = some t ∧
      t.dir = SlotDir.Output ∧ (j + 1) ∈ t.linked_slots
  outputs_nodup : ∀ (j : Nat) (s : Slot), g.slots.get? j = some s → s.dir = SlotDir.Output →
    s.linked_slots.Nodup
  outputs_tgt : ∀ (j : Nat) (s : Slot), g.slots.get? j = some s → s.dir = SlotDir.Output →
    ∀ i ∈ s.linked_slots, 1 ≤ i ∧ ∃ t : Slot, g.slots.get? (i - 1) = some t ∧
      t.dir = SlotDir.Input

/-- The graph states reachable from `Graph::new` through successful (non
panicking) `add_node`, `link`, `unlink` and `unlink_all` calls.  Slot ids
passed by callers are at least 1 because `SlotId` wraps a `NonZeroU32`. -/
inductive Reachable : Graph → Prop where
  | new : Reachable Graph.new
  | add_node (g : Graph) (n : GNode) : Reachable g → Reachable (g.add_node n).2
  | link (g g' : Graph) (o i : Nat) : Reachable g → 1 ≤ o → 1 ≤ i →
      g.link o i = .ok g' → Reachable g'
  | unlink (g g' : Graph) (o i : Nat) : Reachable g → 1 ≤ o → 1 ≤ i →
      g.unlink o i = .ok g' → Reachable g'
  | unlink_all (g g' : Graph) (s : Nat) : Reachable g → 1 ≤ s →
      g.unlink_all s = .ok g' → Reachable g'

lemma get_index_ne_of_dir_ne {g : Graph} {a b : Nat} (ha : a < g.slots.length)
    (hb : b < g.slots.length) (hda : (g.slots.get ⟨a, ha⟩).dir = SlotDir.Output)
    (hdb : (g.slots.get ⟨b, hb⟩).dir = SlotDir.Input) : a ≠ b := by
  intro hab
  subst hab
  rw [hda] at hdb
  cases hdb

/-- Successful path of `Graph::link` under direction-correct arguments. -/
lemma link_ok {g : Graph} {o i : Nat} (ho : o - 1 < g.slots.length)
    (hi : i - 1 < g.slots.length)
    (hodir : (g.slots.get ⟨o - 1, ho⟩).dir = SlotDir.Output)
    (hidir : (g.slots.get ⟨i - 1, hi⟩).dir = SlotDir.Input) :
    g.link o i = .ok ⟨g.nodes,
      (g.slots.set (o - 1) (linkToSlot (g.slots.get ⟨o - 1, ho⟩) i)).set (i - 1)
        (linkInputSlot (g.slots.get ⟨i - 1, hi⟩) o)⟩ := by
  have hne : o - 1 ≠ i - 1 := get_index_ne_of_dir_ne ho hi hodir hidir
  have hbool : (g.slots.get ⟨o - 1, ho⟩).is_output = true := (is_output_iff _).2 hodir
  simp only [Graph.link, dif_pos ho, hbool, if_true,
    link_to_eq _ _ hodir]
  have hi2 : i - 1 < (g.slots.set (o - 1) (linkToSlot (g.slots.get ⟨o - 1, ho⟩) i)).length := by
    simpa using hi
  rw [dif_pos hi2]
  have hget : (g.slots.set (o - 1) (linkToSlot (g.slots.get ⟨o - 1, ho⟩) i)).get ⟨i - 1, hi2⟩ =
      g.slots.get ⟨i - 1, hi⟩ := by
    simp [List.get_eq_getElem, List.getElem_set_ne hne]
  rw [hget]
  have hibool : (g.slots.get ⟨i - 1, hi⟩).is_input = true := (is_input_iff _).2 hidir
  simp only [hibool, if_true, link_input_eq _ _ hidir]

lemma dir_or (s : Slot) : s.dir = SlotDir.Input ∨ s.dir = SlotDir.Output := by
  cases hd : s.dir
  · exact Or.inl rfl
  · exact Or.inr rfl

lemma dir_not_output {s : Slot} (h : ¬s.dir = SlotDir.Output) : s.dir = SlotDir.Input := by
  cases hd : s.dir
  · rfl
  · exact absurd hd h

lemma dir_not_input {s : Slot} (h : ¬s.dir = SlotDir.Input) : s.dir = SlotDir.Output := by
  cases hd : s.dir
  · exact absurd hd h
  · rfl

/-- `Graph::link` in terms of optional indexing. -/
lemma link_ok2 {g : Graph} {o i : Nat} {os is : Slot}
    (h1 : g.slots.get? (o - 1) = some os) (h2 : g.slots.get? (i - 1) = some is)
    (hod : os.dir = SlotDir.Output) (hid : is.dir = SlotDir.Input) :
    g.link o i = .ok ⟨g.nodes,
      (g.slots.set (o - 1) (linkToSlot os i)).set (i - 1) (linkInputSlot is o)⟩ := by
  rcases List.get?_eq_some.mp h1 with ⟨ho, he1⟩
  rcases List.get?_eq_some.mp h2 with ⟨hi, he2⟩
  have h := link_ok ho hi (by rw [he1]; exact hod) (by rw [he2]; exact hid)
  rw [he1, he2] at h
  exact h

/-- Inversion of a successful `Graph::link`. -/
lemma link_ok_inv {g g' : Graph} {o i : Nat} (h : g.link o i = .ok g') :
    ∃ os is : Slot, g.slots.get? (o - 1) = some os ∧ g.slots.get? (i - 1) = some is ∧
      os.dir = SlotDir.Output ∧ is.dir = SlotDir.Input ∧ o - 1 ≠ i - 1 ∧
      g' = ⟨g.nodes, (g.slots.set (o - 1) (linkToSlot os i)).set (i - 1) (linkInputSlot is o)⟩ := by
  by_cases ho : o - 1 < g.slots.length
  case neg =>
    simp only [Graph.link, dif_neg ho] at h
    exact (Except.noConfusion h)
  case pos =>
  by_cases hod : (g.slots.get ⟨o - 1, ho⟩).dir = SlotDir.Output
  case neg =>
    have hb : (g.slots.get ⟨o - 1, ho⟩).is_output = false :=
      (not_is_output_iff _).2 (dir_not_output hod)
    simp only [Graph.link, dif_pos ho, hb, Bool.false_eq_true, if_false] at h
    exact (Except.noConfusion h)
  case pos =>
  have hb : (g.slots.get ⟨o - 1, ho⟩).is_output = true := (is_output_iff _).2 hod
  simp only [Graph.link, dif_pos ho, hb, if_true, link_to_eq _ _ hod] at h
  by_cases hi : i - 1 < g.slots.length
  case neg =>
    have hi2 : ¬(i - 1 <
        (g.slots.set (o - 1) (linkToSlot (g.slots.get ⟨o - 1, ho⟩) i)).length) := by
      simpa using hi
    rw [dif_neg hi2] at h
    cases h
  case pos =>
  have hi2 : i - 1 < (g.slots.set (o - 1) (linkToSlot (g.slots.get ⟨o - 1, ho⟩) i)).length := by
    simpa using hi
  rw [dif_pos hi2] at h
  by_cases hoi : o - 1 = i - 1
  case pos =>
    have hget : (g.slots.set (o - 1) (linkToSlot (g.slots.get ⟨o - 1, ho⟩) i)).get ⟨i - 1, hi2⟩ =
        linkToSlot (g.slots.get ⟨o - 1, ho⟩) i := by
      have hfin : (⟨i - 1, hi2⟩ : Fin _) = ⟨o - 1, by simpa using ho⟩ := Fin.ext hoi.symm
      rw [hfin]
      simp [List.get_eq_getElem]
    have hb2 : ((g.slots.set (o - 1) (linkToSlot (g.slots.get ⟨o - 1, ho⟩) i)).get
        ⟨i - 1, hi2⟩).is_input = false := by
      rw [hget, not_is_input_iff]
      simpa using hod
    simp only [hb2, Bool.false_eq_true, if_false] at h
    exact (Except.noConfusion h)
  case neg =>
  have hget : (g.slots.set (o - 1) (linkToSlot (g.slots.get ⟨o - 1, ho⟩) i)).get ⟨i - 1, hi2⟩ =
      g.slots.get ⟨i - 1, hi⟩ := by
    simp [List.get_eq_getElem, List.getElem_set_ne hoi]
  rw [hget] at h
  by_cases hid : (g.slots.get ⟨i - 1, hi⟩).dir = SlotDir.Input
  case neg =>
    have hb2 : (g.slots.get ⟨i - 1, hi⟩).is_input = false :=
      (not_is_input_iff _).2 (dir_not_input hid)
    simp only [hb2, Bool.false_eq_true, if_false] at h
    exact (Except.noConfusion h)
  case pos =>
  have hb2 : (g.slots.get ⟨i - 1, hi⟩).is_input = true := (is_input_iff _).2 hid
  simp only [hb2, if_true, link_input_eq _ _ hid] at h
  refine ⟨g.slots.get ⟨o - 1, ho⟩, g.slots.get ⟨i - 1, hi⟩, ?_, ?_, hod, hid, hoi, ?_⟩
  · exact List.get?_eq_some.mpr ⟨ho, rfl⟩
  · exact List.get?_eq_some.mpr ⟨hi, rfl⟩
  · exact (Except.ok.inj h).symm

/-- `Graph::unlink` on a pair that is not linked is a no-op. -/
lemma unlink_noop {g : Graph} {o i : Nat} {os : Slot}
    (h1 : g.slots.get? (o - 1) = some os) (hod : os.dir = SlotDir.Output)
    (hm : i ∉ os.linked_slots) :
    g.unlink o i = .ok g := by
  rcases List.get?_eq_some.mp h1 with ⟨ho, he1⟩
  subst he1
  have hb : (g.slots.get ⟨o - 1, ho⟩).is_output = true := (is_output_iff _).2 hod
  simp only [Graph.unlink, dif_pos ho, hb, if_true,
    unlink_from_eq_miss _ _ hod hm, Bool.false_eq_true, if_false]
  rw [set_get_self]

/-- `Graph::unlink` on a linked pair removes the relationship on both sides. -/
lemma unlink_hit {g : Graph} {o i : Nat} {os is : Slot}
    (h1 : g.slots.get? (o - 1) = some os) (h2 : g.slots.get? (i - 1) = some is)
    (hod : os.dir = SlotDir.Output) (hid : is.dir = SlotDir.Input)
    (hm : i ∈ os.linked_slots) :
    g.unlink o i = .ok ⟨g.nodes,
      (g.slots.set (o - 1) (eraseSlot os i)).set (i - 1) (clearSlot is)⟩ := by
  rcases List.get?_eq_some.mp h1 with ⟨ho, he1⟩
  rcases List.get?_eq_some.mp h2 with ⟨hi, he2⟩
  subst he1
  subst he2
  have hne : o - 1 ≠ i - 1 := get_index_ne_of_dir_ne ho hi hod hid
  have hb : (g.slots.get ⟨o - 1, ho⟩).is_output = true := (is_output_iff _).2 hod
  simp only [Graph.unlink, dif_pos ho, hb, if_true, unlink_from_eq_hit _ _ hod hm, if_true]
  have hi2 : i - 1 < (g.slots.set (o - 1) (eraseSlot (g.slots.get ⟨o - 1, ho⟩) i)).length := by
    simpa using hi
  rw [dif_pos hi2]
  have hget : (g.slots.set (o - 1) (eraseSlot (g.slots.get ⟨o - 1, ho⟩) i)).get ⟨i - 1, hi2⟩ =
      g.slots.get ⟨i - 1, hi⟩ := by
    simp [List.get_eq_getElem, List.getElem_set_ne hne]
  rw [hget]
  have hb2 : (g.slots.get ⟨i - 1, hi⟩).is_input = true := (is_input_iff _).2 hid
  simp only [hb2, if_true, unlink_input_eq _ hid]

/-- Inversion of a successful `Graph::unlink`. -/
lemma unlink_ok_inv {g g' : Graph} {o i : Nat} (h : g.unlink o i = .ok g') :
    ∃ os : Slot, g.slots.get? (o - 1) = some os ∧ os.dir = SlotDir.Output ∧
      ((i ∉ os.linked_slots ∧ g' = g) ∨
        (∃ is : Slot, g.slots.get? (i - 1) = some is ∧ i ∈ os.linked_slots ∧
          is.dir = SlotDir.Input ∧ o - 1 ≠ i - 1 ∧
          g' = ⟨g.nodes, (g.slots.set (o - 1) (eraseSlot os i)).set (i - 1) (clearSlot is)⟩)) := by
  by_cases ho : o - 1 < g.slots.length
  case neg =>
    simp only [Graph.unlink, dif_neg ho] at h
    exact (Except.noConfusion h)
  case pos =>
  by_cases hod : (g.slots.get ⟨o - 1, ho⟩).dir = SlotDir.Output
  case neg =>
    have hb : (g.slots.get ⟨o - 1, ho⟩).is_output = false :=
      (not_is_output_iff _).2 (dir_not_output hod)
    simp only [Graph.unlink, dif_pos ho, hb, Bool.false_eq_true, if_false] at h
    exact (Except.noConfusion h)
  case pos =>
  have hb : (g.slots.get ⟨o - 1, ho⟩).is_output = true := (is_output_iff _).2 hod
  refine ⟨g.slots.get ⟨o - 1, ho⟩, List.get?_eq_some.mpr ⟨ho, rfl⟩, hod, ?_⟩
  by_cases hm : i ∈ (g.slots.get ⟨o - 1, ho⟩).linked_slots
  case neg =>
    left
    refine ⟨hm, ?_⟩
    simp only [Graph.unlink, dif_pos ho, hb, if_true,
      unlink_from_eq_miss _ _ hod hm, Bool.false_eq_true, if_false] at h
    rw [set_get_self] at h
    exact (Except.ok.inj h).symm
  case pos =>
  right
  simp only [Graph.unlink, dif_pos ho, hb, if_true, unlink_from_eq_hit _ _ hod hm, if_true] at h
  by_cases hi : i - 1 < g.slots.length
  case neg =>
    have hi2 : ¬(i - 1 <
        (g.slots.set (o - 1) (eraseSlot (g.slots.get ⟨o - 1, ho⟩) i)).length) := by
      simpa using hi
    rw [dif_neg hi2] at h
    cases h
  case pos =>
  have hi2 : i - 1 < (g.slots.set (o - 1) (eraseSlot (g.slots.get ⟨o - 1, ho⟩) i)).length := by
    simpa using hi
  rw [dif_pos hi2] at h
  by_cases hoi : o - 1 = i - 1
  case pos =>
    have hget : (g.slots.set (o - 1) (eraseSlot (g.slots.get ⟨o - 1, ho⟩) i)).get ⟨i - 1, hi2⟩ =
        eraseSlot (g.slots.get ⟨o - 1, ho⟩) i := by
      have hfin : (⟨i - 1, hi2⟩ : Fin _) = ⟨o - 1, by simpa using ho⟩ := Fin.ext hoi.symm
      rw [hfin]
      simp [List.get_eq_getElem]
    have hb2 : ((g.slots.set (o - 1) (eraseSlot (g.slots.get ⟨o - 1, ho⟩) i)).get
        ⟨i - 1, hi2⟩).is_input = false := by
      rw [hget, not_is_input_iff]
      simpa using hod
    simp only [hb2, Bool.false_eq_true, if_false] at h
    exact (Except.noConfusion h)
  case neg =>
  have hget : (g.slots.set (o - 1) (eraseSlot (g.slots.get ⟨o - 1, ho⟩) i)).get ⟨i - 1, hi2⟩ =
      g.slots.get ⟨i - 1, hi⟩ := by
    simp [List.get_eq_getElem, List.getElem_set_ne hoi]
  rw [hget] at h
  by_cases hid : (g.slots.get ⟨i - 1, hi⟩).dir = SlotDir.Input
  case neg =>
    have hb2 : (g.slots.get ⟨i - 1, hi⟩).is_input = false :=
      (not_is_input_iff _).2 (dir_not_input hid)
    simp only [hb2, Bool.false_eq_true, if_false] at h
    exact (Except.noConfusion h)
  case pos =>
  have hb2 : (g.slots.get ⟨i - 1, hi⟩).is_input = true := (is_input_iff _).2 hid
  simp only [hb2, if_true, unlink_input_eq _ hid] at h
  exact ⟨g.slots.get ⟨i - 1, hi⟩, List.get?_eq_some.mpr ⟨hi, rfl⟩, hm, hid, hoi,
    (Except.ok.inj h).symm⟩

lemma mem_linkToSlot {s : Slot} {i x : Nat} :
    x ∈ (linkToSlot s i).linked_slots ↔ x ∈ s.linked_slots ∨ x = i := by
  by_cases hm : i ∈ s.linked_slots
  · simp only [linkToSlot, if_pos hm]
    constructor
    · exact Or.inl
    · rintro (h | rfl)
      · exact h
      · exact hm
  · simp [linkToSlot, if_neg hm]

lemma mem_linkToSlot_self {s : Slot} {i : Nat} : i ∈ (linkToSlot s i).linked_slots :=
  mem_linkToSlot.mpr (Or.inr rfl)

lemma mem_linkToSlot_of_mem {s : Slot} {i x : Nat} (h : x ∈ s.linked_slots) :
    x ∈ (linkToSlot s i).linked_slots :=
  mem_linkToSlot.mpr (Or.inl h)

lemma linkToSlot_nodup {s : Slot} {i : Nat} (h : s.linked_slots.Nodup) :
    (linkToSlot s i).linked_slots.Nodup := by
  by_cases hm : i ∈ s.linked_slots
  · simpa [linkToSlot, hm] using h
  · simp only [linkToSlot, if_neg hm]
    simpa [List.nodup_append] using ⟨h, hm⟩

lemma linkInputSlot_linked {s : Slot} {o : Nat} (hcard : s.linked_slots.length ≤ 1) :
    (linkInputSlot s o).linked_slots = [o] := by
  cases hl : s.linked_slots with
  | nil => simp [linkInputSlot, hl]
  | cons x t =>
    cases t with
    | nil => simp [linkInputSlot, hl]
    | cons y u =>
      rw [hl] at hcard
      simp at hcard

lemma mem_eraseSlot {s : Slot} {i x : Nat} (h : x ∈ (eraseSlot s i).linked_slots) :
    x ∈ s.linked_slots :=
  (List.erase_sublist i s.linked_slots).mem h

lemma eraseSlot_nodup {s : Slot} {i : Nat} (h : s.linked_slots.Nodup) :
    (eraseSlot s i).linked_slots.Nodup :=
  h.erase i

lemma get?_set {α : Type _} (l : List α) (a : Nat) (x : α) (ha : a < l.length) (j : Nat) :
    (l.set a x).get? j = if j = a then some x else l.get? j := by
  by_cases hja : j = a
  · subst hja
    simp [List.get?_eq_getElem?, ha]
  · simp only [List.get?_eq_getElem?, List.getElem?_set_ne (Ne.symm hja)]
    rw [if_neg hja]

lemma get?_set_set {α : Type _} (l : List α) (a b : Nat) (x y : α) (ha : a < l.length)
    (hb : b < l.length) (j : Nat) :
    ((l.set a x).set b y).get? j =
      if j = b then some y else if j = a then some x else l.get? j := by
  by_cases hjb : j = b
  · subst hjb
    simp [List.get?_eq_getElem?, hb]
  · by_cases hja : j = a
    · subst hja
      simp only [List.get?_eq_getElem?, List.getElem?_set_ne (Ne.symm hjb),
        List.getElem?_set_self ha]
      simp [hjb]
    · simp only [List.get?_eq_getElem?, List.getElem?_set_ne (Ne.symm hjb),
        List.getElem?_set_ne (Ne.symm hja)]
      rw [if_neg hjb, if_neg hja]

lemma mkSlots_get? {node_id base : Nat} {defs : List SlotDef} {j : Nat} {s : Slot}
    (h : (mkSlots node_id base defs).get? j = some s) :
    s.node_id = node_id ∧ s.linked_slots = [] ∧ s.id = base + 1 + j := by
  induction defs generalizing base j with
  | nil => simp [mkSlots] at h
  | cons d rest ih =>
    cases j with
    | zero =>
      simp only [mkSlots, List.get?] at h
      obtain rfl := Option.some.inj h
      exact ⟨rfl, rfl, rfl⟩
    | succ k =>
      simp only [mkSlots, List.get?] at h
      obtain ⟨h1, h2, h3⟩ := ih h
      refine ⟨h1, h2, ?_⟩
      omega

/-- The empty graph is well-formed. -/
lemma wf_new : WF Graph.new := by
  constructor <;> intro j s hs <;> simp [Graph.new] at hs

/-- `Graph::add_node` preserves well-formedness. -/
lemma wf_add_node (g : Graph) (n : GNode) (hwf : WF g) : WF (g.add_node n).2 := by
  have hslots : (g.add_node n).2.slots =
      g.slots ++ mkSlots (g.nodes.length + 1) g.slots.length n.slots := by
    simp [Graph.add_node, addSlotsLoop_eq]
  have hnodes : (g.add_node n).2.nodes = g.nodes ++ [n] := by
    simp [Graph.add_node]
  have hsplit : ∀ (j : Nat) (s : Slot), (g.add_node n).2.slots.get? j = some s →
      g.slots.get? j = some s ∨
      (g.slots.length ≤ j ∧
        (mkSlots (g.nodes.length + 1) g.slots.length n.slots).get? (j - g.slots.length) = some s) := by
    intro j s hs
    rw [hslots, List.get?_eq_getElem?, List.getElem?_append] at hs
    by_cases hj : j < g.slots.length
    · left
      rw [List.get?_eq_getElem?]
      rwa [if_pos hj] at hs
    · right
      rw [if_neg hj] at hs
      exact ⟨Nat.le_of_not_lt hj, by rwa [List.get?_eq_getElem?]⟩
  have hembed : ∀ (j : Nat) (s : Slot), g.slots.get? j = some s →
      (g.add_node n).2.slots.get? j = some s := by
    intro j s hs
    have hj : j < g.slots.length := by
      rcases List.get?_eq_some.mp hs with ⟨hj, _⟩
      exact hj
    rw [hslots, List.get?_eq_getElem?, List.getElem?_append, if_pos hj,
      ← List.get?_eq_getElem?]
    exact hs
  constructor
  · intro j s hs
    rcases hsplit j s hs with h | ⟨hle, h⟩
    · exact hwf.ids j s h
    · obtain ⟨-, -, h3⟩ := mkSlots_get? h
      omega
  · intro j s hs
    rw [hnodes]
    rcases hsplit j s hs with h | ⟨hle, h⟩
    · have := hwf.owner j s h
      simp only [List.length_append, List.length_cons, List.length_nil]
      omega
    · obtain ⟨h1, -, -⟩ := mkSlots_get? h
      simp only [h1, List.length_append, List.length_cons, List.length_nil]
      omega
  · intro j s hs hdir
    rcases hsplit j s hs with h | ⟨hle, h⟩
    · exact hwf.inputs_card j s h hdir
    · obtain ⟨-, h2, -⟩ := mkSlots_get? h
      simp [h2]
  · intro j s hs hdir o hmem
    rcases hsplit j s hs with h | ⟨hle, h⟩
    · obtain ⟨h1, t, ht, ht2, ht3⟩ := hwf.inputs_src j s h hdir o hmem
      exact ⟨h1, t, hembed _ t ht, ht2, ht3⟩
    · obtain ⟨-, h2, -⟩ := mkSlots_get? h
      rw [h2] at hmem
      simp at hmem
  · intro j s hs hdir
    rcases hsplit j s hs with h | ⟨hle, h⟩
    · exact hwf.outputs_nodup j s h hdir
    · obtain ⟨-, h2, -⟩ := mkSlots_get? h
      simp [h2]
  · intro j s hs hdir i hmem
    rcases hsplit j s hs with h | ⟨hle, h⟩
    · obtain ⟨h1, t, ht, ht2⟩ := hwf.outputs_tgt j s h hdir i hmem
      exact ⟨h1, t, hembed _ t ht, ht2⟩
    · obtain ⟨-, h2, -⟩ := mkSlots_get? h
      rw [h2] at hmem
      simp at hmem

/-- `Graph::link` preserves well-formedness. -/
lemma wf_link {g g' : Graph} {o i : Nat} (hwf : WF g) (h1o : 1 ≤ o) (h1i : 1 ≤ i)
    (h : g.link o i = .ok g') : WF g' := by
  obtain ⟨os, is, hos, his, hod, hid, hne, rfl⟩ := link_ok_inv h
  rcases List.get?_eq_some.mp hos with ⟨hoB, -⟩
  rcases List.get?_eq_some.mp his with ⟨hiB, -⟩
  have hget : ∀ j : Nat,
      ((g.slots.set (o - 1) (linkToSlot os i)).set (i - 1) (linkInputSlot is o)).get? j =
      if j = i - 1 then some (linkInputSlot is o)
      else if j = o - 1 then some (linkToSlot os i) else g.slots.get? j :=
    get?_set_set g.slots (o - 1) (i - 1) _ _ hoB hiB
  have hii : i - 1 + 1 = i := by omega
  have hoo : o - 1 + 1 = o := by omega
  constructor
  · intro j s hs
    rw [hget j] at hs
    by_cases hji : j = i - 1
    · rw [if_pos hji] at hs
      obtain rfl := Option.some.inj hs
      simpa [hji] using hwf.ids (i - 1) is his
    · rw [if_neg hji] at hs
      by_cases hjo : j = o - 1
      · rw [if_pos hjo] at hs
        obtain rfl := Option.some.inj hs
        simpa [hjo] using hwf.ids (o - 1) os hos
      · rw [if_neg hjo] at hs
        exact hwf.ids j s hs
  · intro j s hs
    rw [hget j] at hs
    by_cases hji : j = i - 1
    · rw [if_pos hji] at hs
      obtain rfl := Option.some.inj hs
      simpa using hwf.owner (i - 1) is his
    · rw [if_neg hji] at hs
      by_cases hjo : j = o - 1
      · rw [if_pos hjo] at hs
        obtain rfl := Option.some.inj hs
        simpa using hwf.owner (o - 1) os hos
      · rw [if_neg hjo] at hs
        exact hwf.owner j s hs
  · intro j s hs hdir
    rw [hget j] at hs
    by_cases hji : j = i - 1
    · rw [if_pos hji] at hs
      obtain rfl := Option.some.inj hs
      rw [linkInputSlot_linked (hwf.inputs_card (i - 1) is his hid)]
      simp
    · rw [if_neg hji] at hs
      by_cases hjo : j = o - 1
      · rw [if_pos hjo] at hs
        obtain rfl := Option.some.inj hs
        rw [linkToSlot_dir, hod] at hdir
        cases hdir
      · rw [if_neg hjo] at hs
        exact hwf.inputs_card j s hs hdir
  · intro j s hs hdir o2 hmem
    rw [hget j] at hs
    by_cases hji : j = i - 1
    · rw [if_pos hji] at hs
      obtain rfl := Option.some.inj hs
      rw [linkInputSlot_linked (hwf.inputs_card (i - 1) is his hid)] at hmem
      rw [List.mem_singleton] at hmem
      subst hmem
      refine ⟨h1o, linkToSlot os i, ?_, ?_, ?_⟩
      · rw [hget (o2 - 1), if_neg (by omega : ¬(o2 - 1 = i - 1)), if_pos rfl]
      · rw [linkToSlot_dir]
        exact hod
      · rw [hji, hii]
        exact mem_linkToSlot_self
    · rw [if_neg hji] at hs
      by_cases hjo : j = o - 1
      · rw [if_pos hjo] at hs
        obtain rfl := Option.some.inj hs
        rw [linkToSlot_dir, hod] at hdir
        cases hdir
      · rw [if_neg hjo] at hs
        obtain ⟨h1, t, ht, htd, htm⟩ := hwf.inputs_src j s hs hdir o2 hmem
        by_cases hti : o2 - 1 = i - 1
        · rw [hti, his] at ht
          obtain rfl := Option.some.inj ht
          rw [hid] at htd
          cases htd
        · by_cases hto : o2 - 1 = o - 1
          · rw [hto, hos] at ht
            obtain rfl := Option.some.inj ht
            refine ⟨h1, linkToSlot os i, ?_, ?_, mem_linkToSlot_of_mem htm⟩
            · rw [hget (o2 - 1), if_neg hti, if_pos hto]
            · rw [linkToSlot_dir]
              exact htd
          · refine ⟨h1, t, ?_, htd, htm⟩
            rw [hget (o2 - 1), if_neg hti, if_neg hto]
            exact ht
  · intro j s hs hdir
    rw [hget j] at hs
    by_cases hji : j = i - 1
    · rw [if_pos hji] at hs
      obtain rfl := Option.some.inj hs
      rw [linkInputSlot_dir, hid] at hdir
      cases hdir
    · rw [if_neg hji] at hs
      by_cases hjo : j = o - 1
      · rw [if_pos hjo] at hs
        obtain rfl := Option.some.inj hs
        exact linkToSlot_nodup (hwf.outputs_nodup (o - 1) os hos hod)
      · rw [if_neg hjo] at hs
        exact hwf.outputs_nodup j s hs hdir
  · intro j s hs hdir x hmem
    rw [hget j] at hs
    by_cases hji : j = i - 1
    · rw [if_pos hji] at hs
      obtain rfl := Option.some.inj hs
      rw [linkInputSlot_dir, hid] at hdir
      cases hdir
    · rw [if_neg hji] at hs
      by_cases hjo : j = o - 1
      · rw [if_pos hjo] at hs
        obtain rfl := Option.some.inj hs
        rcases mem_linkToSlot.mp hmem with hx | rfl
        · obtain ⟨h1, t, ht, htd⟩ := hwf.outputs_tgt (o - 1) os hos hod x hx
          by_cases hxi : x - 1 = i - 1
          · refine ⟨h1, linkInputSlot is o, ?_, ?_⟩
            · rw [hget (x - 1), if_pos hxi]
            · rw [linkInputSlot_dir]
              exact hid
          · by_cases hxo : x - 1 = o - 1
            · rw [hxo, hos] at ht
              obtain rfl := Option.some.inj ht
              rw [hod] at htd
              cases htd
            · refine ⟨h1, t, ?_, htd⟩
              rw [hget (x - 1), if_neg hxi, if_neg hxo]
              exact ht
        · refine ⟨h1i, linkInputSlot is o, ?_, ?_⟩
          · rw [hget (x - 1), if_pos rfl]
          · rw [linkInputSlot_dir]
            exact hid
      · rw [if_neg hjo] at hs
        obtain ⟨h1, t, ht, htd⟩ := hwf.outputs_tgt j s hs hdir x hmem
        by_cases hxi : x - 1 = i - 1
        · refine ⟨h1, linkInputSlot is o, ?_, ?_⟩
          · rw [hget (x - 1), if_pos hxi]
          · rw [linkInputSlot_dir]
            exact hid
        · by_cases hxo : x - 1 = o - 1
          · rw [hxo, hos] at ht
            obtain rfl := Option.some.inj ht
            rw [hod] at htd
            cases htd
          · refine ⟨h1, t, ?_, htd⟩
            rw [hget (x - 1), if_neg hxi, if_neg hxo]
            exact ht

/-- `Graph::unlink` preserves well-formedness. -/
lemma wf_unlink {g g' : Graph} {o i : Nat} (hwf : WF g) (h1i : 1 ≤ i)
    (h : g.unlink o i = .ok g') : WF g' := by
  obtain ⟨os, hos, hod, hcase⟩ := unlink_ok_inv h
  rcases hcase with ⟨-, rfl⟩ | ⟨is, his, hmem0, hid, hne, rfl⟩
  · exact hwf
  rcases List.get?_eq_some.mp hos with ⟨hoB, -⟩
  rcases List.get?_eq_some.mp his with ⟨hiB, -⟩
  have hget : ∀ j : Nat,
      ((g.slots.set (o - 1) (eraseSlot os i)).set (i - 1) (clearSlot is)).get? j =
      if j = i - 1 then some (clearSlot is)
      else if j = o - 1 then some (eraseSlot os i) else g.slots.get? j :=
    get?_set_set g.slots (o - 1) (i - 1) _ _ hoB hiB
  constructor
  · intro j s hs
    rw [hget j] at hs
    by_cases hji : j = i - 1
    · rw [if_pos hji] at hs
      obtain rfl := Option.some.inj hs
      simpa using hwf.ids j is (hji ▸ his)
    · rw [if_neg hji] at hs
      by_cases hjo : j = o - 1
      · rw [if_pos hjo] at hs
        obtain rfl := Option.some.inj hs
        simpa using hwf.ids j os (hjo ▸ hos)
      · rw [if_neg hjo] at hs
        exact hwf.ids j s hs
  · intro j s hs
    rw [hget j] at hs
    by_cases hji : j = i - 1
    · rw [if_pos hji] at hs
      obtain rfl := Option.some.inj hs
      simpa using hwf.owner (i - 1) is his
    · rw [if_neg hji] at hs
      by_cases hjo : j = o - 1
      · rw [if_pos hjo] at hs
        obtain rfl := Option.some.inj hs
        simpa using hwf.owner (o - 1) os hos
      · rw [if_neg hjo] at hs
        exact hwf.owner j s hs
  · intro j s hs hdir
    rw [hget j] at hs
    by_cases hji : j = i - 1
    · rw [if_pos hji] at hs
      obtain rfl := Option.some.inj hs
      simp
    · rw [if_neg hji] at hs
      by_cases hjo : j = o - 1
      · rw [if_pos hjo] at hs
        obtain rfl := Option.some.inj hs
        rw [eraseSlot_dir, hod] at hdir
        cases hdir
      · rw [if_neg hjo] at hs
        exact hwf.inputs_card j s hs hdir
  · intro j s hs hdir o2 hmem
    rw [hget j] at hs
    by_cases hji : j = i - 1
    · rw [if_pos hji] at hs
      obtain rfl := Option.some.inj hs
      simp at hmem
    · rw [if_neg hji] at hs
      by_cases hjo : j = o - 1
      · rw [if_pos hjo] at hs
        obtain rfl := Option.some.inj hs
        rw [eraseSlot_dir, hod] at hdir
        cases hdir
      · rw [if_neg hjo] at hs
        obtain ⟨h1, t, ht, htd, htm⟩ := hwf.inputs_src j s hs hdir o2 hmem
        by_cases hti : o2 - 1 = i - 1
        · rw [hti, his] at ht
          obtain rfl := Option.some.inj ht
          rw [hid] at htd
          cases htd
        · by_cases hto : o2 - 1 = o - 1
          · rw [hto, hos] at ht
            obtain rfl := Option.some.inj ht
            refine ⟨h1, eraseSlot os i, ?_, ?_, ?_⟩
            · rw [hget (o2 - 1), if_neg hti, if_pos hto]
            · rw [eraseSlot_dir]
              exact htd
            · have hji2 : j + 1 ≠ i := by omega
              exact (List.mem_erase_of_ne hji2).mpr htm
          · refine ⟨h1, t, ?_, htd, htm⟩
            rw [hget (o2 - 1), if_neg hti, if_neg hto]
            exact ht
  · intro j s hs hdir
    rw [hget j] at hs
    by_cases hji : j = i - 1
    · rw [if_pos hji] at hs
      obtain rfl := Option.some.inj hs
      simp
    · rw [if_neg hji] at hs
      by_cases hjo : j = o - 1
      · rw [if_pos hjo] at hs
        obtain rfl := Option.some.inj hs
        exact eraseSlot_nodup (hwf.outputs_nodup (o - 1) os hos hod)
      · rw [if_neg hjo] at hs
        exact hwf.outputs_nodup j s hs hdir
  · intro j s hs hdir x hmem
    rw [hget j] at hs
    by_cases hji : j = i - 1
    · rw [if_pos hji] at hs
      obtain rfl := Option.some.inj hs
      simp at hmem
    · rw [if_neg hji] at hs
      by_cases hjo : j = o - 1
      · rw [if_pos hjo] at hs
        obtain rfl := Option.some.inj hs
        have hx : x ∈ os.linked_slots := mem_eraseSlot hmem
        obtain ⟨h1, t, ht, htd⟩ := hwf.outputs_tgt (o - 1) os hos hod x hx
        by_cases hxi : x - 1 = i - 1
        · refine ⟨h1, clearSlot is, ?_, ?_⟩
          · rw [hget (x - 1), if_pos hxi]
          · rw [clearSlot_dir]
            exact hid
        · by_cases hxo : x - 1 = o - 1
          · rw [hxo, hos] at ht
            obtain rfl := Option.some.inj ht
            rw [hod] at htd
            cases htd
          · refine ⟨h1, t, ?_, htd⟩
            rw [hget (x - 1), if_neg hxi, if_neg hxo]
            exact ht
      · rw [if_neg hjo] at hs
        obtain ⟨h1, t, ht, htd⟩ := hwf.outputs_tgt j s hs hdir x hmem
        by_cases hxi : x - 1 = i - 1
        · refine ⟨h1, clearSlot is, ?_, ?_⟩
          · rw [hget (x - 1), if_pos hxi]
          · rw [clearSlot_dir]
            exact hid
        · by_cases hxo : x - 1 = o - 1
          · rw [hxo, hos] at ht
            obtain rfl := Option.some.inj ht
            rw [hod] at htd
            cases htd
          · refine ⟨h1, t, ?_, htd⟩
            rw [hget (x - 1), if_neg hxi, if_neg hxo]
            exact ht

lemma unlink_from_eq {s : Slot} {i : Nat} (h : s.dir = SlotDir.Output) :
    ∃ b : Bool, s.unlink_from i = some (eraseSlot s i, b) := by
  by_cases hm : i ∈ s.linked_slots
  · exact ⟨true, unlink_from_eq_hit s i h hm⟩
  · refine ⟨false, ?_⟩
    rw [unlink_from_eq_miss s i h hm]
    simp [eraseSlot, List.erase_of_not_mem hm]

/-- Specification of the `Graph::unlink_all` remote-notification loop.  The
state invariant is well-formedness weakened at the slot being fully unlinked:
an input whose recorded source is that slot need not appear in its (already
cleared) fan-out as long as the input is still pending in the remaining
remote list. -/
lemma unlink_all_loop_spec (sid : Nat) (h1s : 1 ≤ sid) (R : List Nat) :
    ∀ gl : Graph,
    (∀ r ∈ R, 1 ≤ r ∧ r - 1 < gl.slots.length) →
    (∀ ss : Slot, gl.slots.get? (sid - 1) = some ss → ss.linked_slots = []) →
    (∀ (j : Nat) (s : Slot), gl.slots.get? j = some s → s.id = j + 1) →
    (∀ (j : Nat) (s : Slot), gl.slots.get? j = some s → s.node_id ≤ gl.nodes.length) →
    (∀ (j : Nat) (s : Slot), gl.slots.get? j = some s → s.dir = SlotDir.Input →
      s.linked_slots.length ≤ 1) →
    (∀ (j : Nat) (s : Slot), gl.slots.get? j = some s → s.dir = SlotDir.Input →
      ∀ o ∈ s.linked_slots, 1 ≤ o ∧ ∃ t : Slot, gl.slots.get? (o - 1) = some t ∧
        t.dir = SlotDir.Output ∧ ((j + 1) ∈ t.linked_slots ∨ (o = sid ∧ (j + 1) ∈ R))) →
    (∀ (j : Nat) (s : Slot), gl.slots.get? j = some s → s.dir = SlotDir.Output →
      s.linked_slots.Nodup) →
    (∀ (j : Nat) (s : Slot), gl.slots.get? j = some s → s.dir = SlotDir.Output →
      ∀ i ∈ s.linked_slots, 1 ≤ i ∧ ∃ t : Slot, gl.slots.get? (i - 1) = some t ∧
        t.dir = SlotDir.Input) →
    ∃ g2 : Graph, Graph.unlink_all_loop gl sid R = .ok g2 ∧
      g2.nodes = gl.nodes ∧
      g2.slots.length = gl.slots.length ∧
      (∀ (j : Nat) (s2 : Slot), g2.slots.get? j = some s2 → ∃ s1 : Slot,
        gl.slots.get? j = some s1 ∧ s2.id = s1.id ∧ s2.node_id = s1.node_id ∧
        s2.sdef = s1.sdef ∧ s2.linked_slots ⊆ s1.linked_slots) ∧
      (∀ r ∈ R, ∀ rs : Slot, g2.slots.get? (r - 1) = some rs → sid ∉ rs.linked_slots) ∧
      WF g2 := by
  induction R with
  | nil =>
    intro gl hR hempty hids howner hic his hon hot
    refine ⟨gl, rfl, rfl, rfl, ?_, by simp, ?_⟩
    · intro j s2 hs2
      exact ⟨s2, hs2, rfl, rfl, rfl, List.Subset.refl _⟩
    · constructor
      · exact hids
      · exact howner
      · exact hic
      · intro j s hs hdir o hmem
        obtain ⟨h1, t, ht, htd, hdisj⟩ := his j s hs hdir o hmem
        rcases hdisj with hm | ⟨-, hfalse⟩
        · exact ⟨h1, t, ht, htd, hm⟩
        · simp at hfalse
      · exact hon
      · exact hot
  | cons r rest ih =>
    intro gl hR hempty hids howner hic his hon hot
    obtain ⟨h1r, hrB⟩ := hR r (by simp)
    have hrsq : gl.slots.get? (r - 1) = some (gl.slots.get ⟨r - 1, hrB⟩) :=
      List.get?_eq_some.mpr ⟨hrB, rfl⟩
    by_cases hrd : (gl.slots.get ⟨r - 1, hrB⟩).dir = SlotDir.Input
    · -- the remote slot is an input: its single link is cleared
      have hb : (gl.slots.get ⟨r - 1, hrB⟩).is_input = true := (is_input_iff _).2 hrd
      have hloop : Graph.unlink_all_loop gl sid (r :: rest) =
          Graph.unlink_all_loop
            ⟨gl.nodes, gl.slots.set (r - 1) (clearSlot (gl.slots.get ⟨r - 1, hrB⟩))⟩
            sid rest := by
        simp only [Graph.unlink_all_loop, dif_pos hrB, hb, if_true, unlink_input_eq _ hrd]
      have hget : ∀ j : Nat,
          (gl.slots.set (r - 1) (clearSlot (gl.slots.get ⟨r - 1, hrB⟩))).get? j =
          if j = r - 1 then some (clearSlot (gl.slots.get ⟨r - 1, hrB⟩))
          else gl.slots.get? j :=
        get?_set gl.slots (r - 1) _ hrB
      obtain ⟨g2, hg2, hn2, hl2, hshape2, hrem2, hwf2⟩ := ih
        ⟨gl.nodes, gl.slots.set (r - 1) (clearSlot (gl.slots.get ⟨r - 1, hrB⟩))⟩
        (by
          intro x hx
          obtain ⟨u1, u2⟩ := hR x (by simp [hx])
          exact ⟨u1, by simpa using u2⟩)
        (by
          intro ss hss
          rw [hget] at hss
          by_cases hsr : sid - 1 = r - 1
          · rw [if_pos hsr] at hss
            obtain rfl := Option.some.inj hss
            simp
          · rw [if_neg hsr] at hss
            exact hempty ss hss)
        (by
          intro j s hs
          rw [hget] at hs
          by_cases hjr : j = r - 1
          · rw [if_pos hjr] at hs
            obtain rfl := Option.some.inj hs
            simpa [hjr] using hids (r - 1) _ hrsq
          · rw [if_neg hjr] at hs
            exact hids j s hs)
        (by
          intro j s hs
          rw [hget] at hs
          by_cases hjr : j = r - 1
          · rw [if_pos hjr] at hs
            obtain rfl := Option.some.inj hs
            simpa using howner (r - 1) _ hrsq
          · rw [if_neg hjr] at hs
            exact howner j s hs)
        (by
          intro j s hs hdir
          rw [hget] at hs
          by_cases hjr : j = r - 1
          · rw [if_pos hjr] at hs
            obtain rfl := Option.some.inj hs
            simp
          · rw [if_neg hjr] at hs
            exact hic j s hs hdir)
        (by
          intro j s hs hdir o hmem
          rw [hget] at hs
          by_cases hjr : j = r - 1
          · rw [if_pos hjr] at hs
            obtain rfl := Option.some.inj hs
            simp at hmem
          · rw [if_neg hjr] at hs
            obtain ⟨h1, t, ht, htd, hdisj⟩ := his j s hs hdir o hmem
            by_cases hor : o - 1 = r - 1
            · rw [hor, hrsq] at ht
              obtain rfl := Option.some.inj ht
              rw [hrd] at htd
              cases htd
            · refine ⟨h1, t, ?_, htd, ?_⟩
              · rw [hget, if_neg hor]
                exact ht
              · rcases hdisj with hm | ⟨ho1, ho2⟩
                · exact Or.inl hm
                · refine Or.inr ⟨ho1, ?_⟩
                  rcases List.mem_cons.mp ho2 with he | he
                  · exact absurd (by omega : j = r - 1) hjr
                  · exact he)
        (by
          intro j s hs hdir
          rw [hget] at hs
          by_cases hjr : j = r - 1
          · rw [if_pos hjr] at hs
            obtain rfl := Option.some.inj hs
            simp
          · rw [if_neg hjr] at hs
            exact hon j s hs hdir)
        (by
          intro j s hs hdir x hmem
          rw [hget] at hs
          by_cases hjr : j = r - 1
          · rw [if_pos hjr] at hs
            obtain rfl := Option.some.inj hs
            rw [clearSlot_dir, hrd] at hdir
            cases hdir
          · rw [if_neg hjr] at hs
            obtain ⟨h1, t, ht, htd⟩ := hot j s hs hdir x hmem
            by_cases hxr : x - 1 = r - 1
            · refine ⟨h1, clearSlot (gl.slots.get ⟨r - 1, hrB⟩), ?_, ?_⟩
              · rw [hget, if_pos hxr]
              · rw [clearSlot_dir]
                exact hrd
            · refine ⟨h1, t, ?_, htd⟩
              rw [hget, if_neg hxr]
              exact ht)
      refine ⟨g2, by rw [hloop]; exact hg2, hn2, by simpa using hl2, ?_, ?_, hwf2⟩
      · intro j s2 hs2
        obtain ⟨s1, hs1, e1, e2, e3, e4⟩ := hshape2 j s2 hs2
        rw [hget] at hs1
        by_cases hjr : j = r - 1
        · rw [if_pos hjr] at hs1
          obtain rfl := Option.some.inj hs1
          refine ⟨gl.slots.get ⟨r - 1, hrB⟩, by rw [hjr]; exact hrsq, by simpa using e1,
            by simpa using e2, by simpa using e3, ?_⟩
          intro x hx
          exact absurd (e4 hx) (by simp)
        · rw [if_neg hjr] at hs1
          exact ⟨s1, hs1, e1, e2, e3, e4⟩
      · intro x hx rs hrs
        rcases List.mem_cons.mp hx with rfl | hx2
        · obtain ⟨s1, hs1, -, -, -, e4⟩ := hshape2 (x - 1) rs hrs
          rw [hget, if_pos rfl] at hs1
          obtain rfl := Option.some.inj hs1
          intro hc
          exact absurd (e4 hc) (by simp)
        · exact hrem2 x hx2 rs hrs
    · -- the remote slot is an output: the original id is erased from its fan-out
      have hrod : (gl.slots.get ⟨r - 1, hrB⟩).dir = SlotDir.Output := dir_not_input hrd
      have hb : (gl.slots.get ⟨r - 1, hrB⟩).is_input = false := (not_is_input_iff _).2 hrod
      obtain ⟨bb, hbb⟩ := unlink_from_eq (s := gl.slots.get ⟨r - 1, hrB⟩) (i := sid) hrod
      have hloop : Graph.unlink_all_loop gl sid (r :: rest) =
          Graph.unlink_all_loop
            ⟨gl.nodes, gl.slots.set (r - 1) (eraseSlot (gl.slots.get ⟨r - 1, hrB⟩) sid)⟩
            sid rest := by
        simp only [Graph.unlink_all_loop, dif_pos hrB, hb, Bool.false_eq_true, if_false, hbb]
      have hget : ∀ j : Nat,
          (gl.slots.set (r - 1) (eraseSlot (gl.slots.get ⟨r - 1, hrB⟩) sid)).get? j =
          if j = r - 1 then some (eraseSlot (gl.slots.get ⟨r - 1, hrB⟩) sid)
          else gl.slots.get? j :=
        get?_set gl.slots (r - 1) _ hrB
      obtain ⟨g2, hg2, hn2, hl2, hshape2, hrem2, hwf2⟩ := ih
        ⟨gl.nodes, gl.slots.set (r - 1) (eraseSlot (gl.slots.get ⟨r - 1, hrB⟩) sid)⟩
        (by
          intro x hx
          obtain ⟨u1, u2⟩ := hR x (by simp [hx])
          exact ⟨u1, by simpa using u2⟩)
        (by
          intro ss hss
          rw [hget] at hss
          by_cases hsr : sid - 1 = r - 1
          · rw [if_pos hsr] at hss
            obtain rfl := Option.some.inj hss
            have hemp : (gl.slots.get ⟨r - 1, hrB⟩).linked_slots = [] := by
              apply hempty
              rw [hsr]
              exact hrsq
            show (gl.slots.get ⟨r - 1, hrB⟩).linked_slots.erase sid = []
            rw [hemp]
            rfl
          · rw [if_neg hsr] at hss
            exact hempty ss hss)
        (by
          intro j s hs
          rw [hget] at hs
          by_cases hjr : j = r - 1
          · rw [if_pos hjr] at hs
            obtain rfl := Option.some.inj hs
            simpa [hjr] using hids (r - 1) _ hrsq
          · rw [if_neg hjr] at hs
            exact hids j s hs)
        (by
          intro j s hs
          rw [hget] at hs
          by_cases hjr : j = r - 1
          · rw [if_pos hjr] at hs
            obtain rfl := Option.some.inj hs
            simpa using howner (r - 1) _ hrsq
          · rw [if_neg hjr] at hs
            exact howner j s hs)
        (by
          intro j s hs hdir
          rw [hget] at hs
          by_cases hjr : j = r - 1
          · rw [if_pos hjr] at hs
            obtain rfl := Option.some.inj hs
            rw [eraseSlot_dir, hrod] at hdir
            cases hdir
          · rw [if_neg hjr] at hs
            exact hic j s hs hdir)
        (by
          intro j s hs hdir o hmem
          rw [hget] at hs
          by_cases hjr : j = r - 1
          · rw [if_pos hjr] at hs
            obtain rfl := Option.some.inj hs
            rw [eraseSlot_dir, hrod] at hdir
            cases hdir
          · rw [if_neg hjr] at hs
            obtain ⟨h1, t, ht, htd, hdisj⟩ := his j s hs hdir o hmem
            by_cases hor : o - 1 = r - 1
            · rw [hor, hrsq] at ht
              obtain rfl := Option.some.inj ht
              refine ⟨h1, eraseSlot (gl.slots.get ⟨r - 1, hrB⟩) sid, ?_, ?_, ?_⟩
              · rw [hget, if_pos hor]
              · rw [eraseSlot_dir]
                exact htd
              · rcases hdisj with hm | ⟨ho1, ho2⟩
                · by_cases hjs : j + 1 = sid
                  · have hj : j = sid - 1 := by omega
                    have hemp := hempty s (by rw [← hj]; exact hs)
                    rw [hemp] at hmem
                    simp at hmem
                  · exact Or.inl ((List.mem_erase_of_ne hjs).mpr hm)
                · refine Or.inr ⟨ho1, ?_⟩
                  rcases List.mem_cons.mp ho2 with he | he
                  · exact absurd (by omega : j = r - 1) hjr
                  · exact he
            · refine ⟨h1, t, ?_, htd, ?_⟩
              · rw [hget, if_neg hor]
                exact ht
              · rcases hdisj with hm | ⟨ho1, ho2⟩
                · exact Or.inl hm
                · refine Or.inr ⟨ho1, ?_⟩
                  rcases List.mem_cons.mp ho2 with he | he
                  · exact absurd (by omega : j = r - 1) hjr
                  · exact he)
        (by
          intro j s hs hdir
          rw [hget] at hs
          by_cases hjr : j = r - 1
          · rw [if_pos hjr] at hs
            obtain rfl := Option.some.inj hs
            exact eraseSlot_nodup (hon (r - 1) _ hrsq hrod)
          · rw [if_neg hjr] at hs
            exact hon j s hs hdir)
        (by
          intro j s hs hdir x hmem
          rw [hget] at hs
          by_cases hjr : j = r - 1
          · rw [if_pos hjr] at hs
            obtain rfl := Option.some.inj hs
            obtain ⟨h1, t, ht, htd⟩ := hot (r - 1) _ hrsq hrod x (mem_eraseSlot hmem)
            by_cases hxr : x - 1 = r - 1
            · rw [hxr, hrsq] at ht
              obtain rfl := Option.some.inj ht
              rw [hrod] at htd
              cases htd
            · refine ⟨h1, t, ?_, htd⟩
              rw [hget, if_neg hxr]
              exact ht
          · rw [if_neg hjr] at hs
            obtain ⟨h1, t, ht, htd⟩ := hot j s hs hdir x hmem
            by_cases hxr : x - 1 = r - 1
            · rw [hxr, hrsq] at ht
              obtain rfl := Option.some.inj ht
              rw [hrod] at htd
              cases htd
            · refine ⟨h1, t, ?_, htd⟩
              rw [hget, if_neg hxr]
              exact ht)
      refine ⟨g2, by rw [hloop]; exact hg2, hn2, by simpa using hl2, ?_, ?_, hwf2⟩
      · intro j s2 hs2
        obtain ⟨s1, hs1, e1, e2, e3, e4⟩ := hshape2 j s2 hs2
        rw [hget] at hs1
        by_cases hjr : j = r - 1
        · rw [if_pos hjr] at hs1
          obtain rfl := Option.some.inj hs1
          refine ⟨gl.slots.get ⟨r - 1, hrB⟩, by rw [hjr]; exact hrsq, by simpa using e1,
            by simpa using e2, by simpa using e3, ?_⟩
          intro x hx
          exact mem_eraseSlot (e4 hx)
        · rw [if_neg hjr] at hs1
          exact ⟨s1, hs1, e1, e2, e3, e4⟩
      · intro x hx rs hrs
        rcases List.mem_cons.mp hx with rfl | hx2
        · obtain ⟨s1, hs1, -, -, -, e4⟩ := hshape2 (x - 1) rs hrs
          rw [hget, if_pos rfl] at hs1
          obtain rfl := Option.some.inj hs1
          intro hc
          have hnd := hon (x - 1) _ hrsq hrod
          exact hnd.not_mem_erase (e4 hc)
        · exact hrem2 x hx2 rs hrs

/-- Full specification of `Graph::unlink_all` on a well-formed graph: it
succeeds, preserves well-formedness, leaves the slot with zero links, and
removes the slot id from every formerly linked remote slot. -/
lemma unlink_all_spec {g : Graph} {sid : Nat} (hwf : WF g) (h1s : 1 ≤ sid)
    (hsB : sid - 1 < g.slots.length) :
    ∃ g2 : Graph, g.unlink_all sid = .ok g2 ∧ WF g2 ∧
      g2.nodes = g.nodes ∧ g2.slots.length = g.slots.length ∧
      (∀ ss : Slot, g2.slots.get? (sid - 1) = some ss → ss.linked_slots = []) ∧
      (∀ r ∈ (g.slots.get ⟨sid - 1, hsB⟩).linked_slots, ∀ rs : Slot,
        g2.slots.get? (r - 1) = some rs → sid ∉ rs.linked_slots) := by
  have hsq : g.slots.get? (sid - 1) = some (g.slots.get ⟨sid - 1, hsB⟩) :=
    List.get?_eq_some.mpr ⟨hsB, rfl⟩
  have hgetc : ∀ j : Nat,
      (g.slots.set (sid - 1) (clearSlot (g.slots.get ⟨sid - 1, hsB⟩))).get? j =
      if j = sid - 1 then some (clearSlot (g.slots.get ⟨sid - 1, hsB⟩))
      else g.slots.get? j :=
    get?_set g.slots (sid - 1) _ hsB
  have hRvalid : ∀ r ∈ (g.slots.get ⟨sid - 1, hsB⟩).linked_slots,
      1 ≤ r ∧ r - 1 < g.slots.length := by
    intro r hr
    rcases dir_or (g.slots.get ⟨sid - 1, hsB⟩) with hd | hd
    · obtain ⟨h1, t, ht, -, -⟩ := hwf.inputs_src (sid - 1) _ hsq hd r hr
      rcases List.get?_eq_some.mp ht with ⟨hb, -⟩
      exact ⟨h1, hb⟩
    · obtain ⟨h1, t, ht, -⟩ := hwf.outputs_tgt (sid - 1) _ hsq hd r hr
      rcases List.get?_eq_some.mp ht with ⟨hb, -⟩
      exact ⟨h1, hb⟩
  obtain ⟨g2, hg2, hn2, hl2, hshape2, hrem2, hwf2⟩ :=
    unlink_all_loop_spec sid h1s (g.slots.get ⟨sid - 1, hsB⟩).linked_slots
      ⟨g.nodes, g.slots.set (sid - 1) (clearSlot (g.slots.get ⟨sid - 1, hsB⟩))⟩
      (by
        intro r hr
        obtain ⟨u1, u2⟩ := hRvalid r hr
        exact ⟨u1, by simpa using u2⟩)
      (by
        intro ss hss
        rw [hgetc, if_pos rfl] at hss
        obtain rfl := Option.some.inj hss
        rfl)
      (by
        intro j s hs
        rw [hgetc] at hs
        by_cases hjr : j = sid - 1
        · rw [if_pos hjr] at hs
          obtain rfl := Option.some.inj hs
          simpa [hjr] using hwf.ids (sid - 1) _ hsq
        · rw [if_neg hjr] at hs
          exact hwf.ids j s hs)
      (by
        intro j s hs
        rw [hgetc] at hs
        by_cases hjr : j = sid - 1
        · rw [if_pos hjr] at hs
          obtain rfl := Option.some.inj hs
          simpa using hwf.owner (sid - 1) _ hsq
        · rw [if_neg hjr] at hs
          exact hwf.owner j s hs)
      (by
        intro j s hs hdir
        rw [hgetc] at hs
        by_cases hjr : j = sid - 1
        · rw [if_pos hjr] at hs
          obtain rfl := Option.some.inj hs
          simp
        · rw [if_neg hjr] at hs
          exact hwf.inputs_card j s hs hdir)
      (by
        intro j s hs hdir o hmem
        rw [hgetc] at hs
        by_cases hjr : j = sid - 1
        · rw [if_pos hjr] at hs
          obtain rfl := Option.some.inj hs
          simp at hmem
        · rw [if_neg hjr] at hs
          obtain ⟨h1, t, ht, htd, htm⟩ := hwf.inputs_src j s hs hdir o hmem
          by_cases hor : o - 1 = sid - 1
          · rw [hor, hsq] at ht
            obtain rfl := Option.some.inj ht
            refine ⟨h1, clearSlot (g.slots.get ⟨sid - 1, hsB⟩), ?_, ?_, ?_⟩
            · rw [hgetc, if_pos hor]
            · rw [clearSlot_dir]
              exact htd
            · exact Or.inr ⟨by omega, htm⟩
          · refine ⟨h1, t, ?_, htd, Or.inl htm⟩
            rw [hgetc, if_neg hor]
            exact ht)
      (by
        intro j s hs hdir
        rw [hgetc] at hs
        by_cases hjr : j = sid - 1
        · rw [if_pos hjr] at hs
          obtain rfl := Option.some.inj hs
          simp
        · rw [if_neg hjr] at hs
          exact hwf.outputs_nodup j s hs hdir)
      (by
        intro j s hs hdir x hmem
        rw [hgetc] at hs
        by_cases hjr : j = sid - 1
        · rw [if_pos hjr] at hs
          obtain rfl := Option.some.inj hs
          simp at hmem
        · rw [if_neg hjr] at hs
          obtain ⟨h1, t, ht, htd⟩ := hwf.outputs_tgt j s hs hdir x hmem
          by_cases hxr : x - 1 = sid - 1
          · rw [hxr, hsq] at ht
            obtain rfl := Option.some.inj ht
            refine ⟨h1, clearSlot (g.slots.get ⟨sid - 1, hsB⟩), ?_, ?_⟩
            · rw [hgetc, if_pos hxr]
            · rw [clearSlot_dir]
              exact htd
          · refine ⟨h1, t, ?_, htd⟩
            rw [hgetc, if_neg hxr]
            exact ht)
  have hok : g.unlink_all sid = Graph.unlink_all_loop
      ⟨g.nodes, g.slots.set (sid - 1) (clearSlot (g.slots.get ⟨sid - 1, hsB⟩))⟩
      sid (g.slots.get ⟨sid - 1, hsB⟩).linked_slots := by
    simp only [Graph.unlink_all, dif_pos hsB]
    rfl
  refine ⟨g2, by rw [hok]; exact hg2, hwf2, by simpa using hn2, by simpa using hl2, ?_, ?_⟩
  · intro ss hss
    obtain ⟨s1, hs1, -, -, -, e4⟩ := hshape2 (sid - 1) ss hss
    rw [hgetc, if_pos rfl] at hs1
    obtain rfl := Option.some.inj hs1
    have : ss.linked_slots ⊆ ([] : List Nat) := by simpa using e4
    exact List.eq_nil_iff_forall_not_mem.mpr fun x hx => (by simpa using this hx)
  · exact hrem2

/-- `Graph::unlink_all` preserves well-formedness. -/
lemma wf_unlink_all {g g' : Graph} {sid : Nat} (hwf : WF g) (h1s : 1 ≤ sid)
    (h : g.unlink_all sid = .ok g') : WF g' := by
  by_cases hsB : sid - 1 < g.slots.length
  · obtain ⟨g2, hok, hwf2, -, -, -, -⟩ := unlink_all_spec hwf h1s hsB
    rw [hok] at h
    obtain rfl := Except.ok.inj h
    exact hwf2
  · simp only [Graph.unlink_all, dif_neg hsB] at h
    exact (Except.noConfusion h)

/-- Every reachable graph state is well-formed. -/
lemma wf_of_reachable {g : Graph} (h : Reachable g) : WF g := by
  induction h with
  | new => exact wf_new
  | add_node g n _ ih => exact wf_add_node g n ih
  | link g g' o i _ h1o h1i hok ih => exact wf_link ih h1o h1i hok
  | unlink g g' o i _ h1o h1i hok ih => exact wf_unlink ih h1i hok
  | unlink_all g g' s _ h1s hok ih => exact wf_unlink_all ih h1s hok

lemma linked_of_eq {g : Graph} {sid : Nat} {s : Slot} (h : g.slots.get? (sid - 1) = some s) :
    g.linked_of sid = s.linked_slots := by
  rw [List.get?_eq_getElem?] at h
  simp [Graph.linked_of, h]

lemma slot_dir_eq_some {g : Graph} {sid : Nat} {d : SlotDir} (h : g.slot_dir sid = some d) :
    ∃ s : Slot, g.slots.get? (sid - 1) = some s ∧ s.dir = d := by
  simpa [Graph.slot_dir] using h

lemma slot_dir_of_get? {g : Graph} {sid : Nat} {s : Slot}
    (h : g.slots.get? (sid - 1) = some s) : g.slot_dir sid = some s.dir := by
  rw [List.get?_eq_getElem?] at h
  simp [Graph.slot_dir, h]

lemma set_of_get? {α : Type _} {l : List α} {j : Nat} {x : α} (h : l.get? j = some x) :
    l.set j x = l := by
  rcases List.get?_eq_some.mp h with ⟨hb, rfl⟩
  exact set_get_self l j hb

lemma linkToSlot_of_mem {s : Slot} {i : Nat} (hm : i ∈ s.linked_slots) :
    linkToSlot s i = s := by
  simp [linkToSlot, hm]

lemma linkInputSlot_twice (s : Slot) (o o2 : Nat) :
    linkInputSlot (linkInputSlot s o) o2 = linkInputSlot s o2 := by
  cases s with
  | mk nid id sdef linked =>
    cases linked with
    | nil => rfl
    | cons x t => rfl

/-- The failing path of `Graph::link` when the target slot exists but is not
an input: the call panics, with the output's fan-out already updated. -/
lemma link_err {g : Graph} {o i : Nat} {os isl : Slot}
    (h1 : g.slots.get? (o - 1) = some os) (h2 : g.slots.get? (i - 1) = some isl)
    (hod : os.dir = SlotDir.Output) (hid : isl.dir = SlotDir.Output) :
    g.link o i = .error ⟨g.nodes, g.slots.set (o - 1) (linkToSlot os i)⟩ := by
  rcases List.get?_eq_some.mp h1 with ⟨ho, he1⟩
  rcases List.get?_eq_some.mp h2 with ⟨hi, he2⟩
  subst he1
  subst he2
  have hb : (g.slots.get ⟨o - 1, ho⟩).is_output = true := (is_output_iff _).2 hod
  simp only [Graph.link, dif_pos ho, hb, if_true, link_to_eq _ _ hod]
  have hi2 : i - 1 < (g.slots.set (o - 1) (linkToSlot (g.slots.get ⟨o - 1, ho⟩) i)).length := by
    simpa using hi
  rw [dif_pos hi2]
  by_cases hoi : o - 1 = i - 1
  · have hget : (g.slots.set (o - 1) (linkToSlot (g.slots.get ⟨o - 1, ho⟩) i)).get ⟨i - 1, hi2⟩ =
        linkToSlot (g.slots.get ⟨o - 1, ho⟩) i := by
      have hfin : (⟨i - 1, hi2⟩ : Fin _) = ⟨o - 1, by simpa using ho⟩ := Fin.ext hoi.symm
      rw [hfin]
      simp [List.get_eq_getElem]
    have hb2 : ((g.slots.set (o - 1) (linkToSlot (g.slots.get ⟨o - 1, ho⟩) i)).get
        ⟨i - 1, hi2⟩).is_input = false := by
      rw [hget, not_is_input_iff]
      simpa using hod
    simp only [hb2, Bool.false_eq_true, if_false]
  · have hget : (g.slots.set (o - 1) (linkToSlot (g.slots.get ⟨o - 1, ho⟩) i)).get ⟨i - 1, hi2⟩ =
        g.slots.get ⟨i - 1, hi⟩ := by
      simp [List.get_eq_getElem, List.getElem_set_ne hoi]
    have hb2 : ((g.slots.set (o - 1) (linkToSlot (g.slots.get ⟨o - 1, ho⟩) i)).get
        ⟨i - 1, hi2⟩).is_input = false := by
      rw [hget, not_is_input_iff]
      exact hid
    simp only [hb2, Bool.false_eq_true, if_false]

/-- C2: the claimed equivalence — `eval` succeeds exactly on as many inputs as
declared input-direction slots and returns one handle per declared
output-direction slot — fails on `NormalizeNode`: its constructor declares
zero input-direction slots and two output-direction slots (both built with
`SlotDef::output`), yet `eval` rejects the empty input vector and, on one
input, succeeds returning a single handle instead of the two declared
outputs. -/
theorem c2_normalize_arity_divergence :
    (NormalizeNode.new.slots.filter fun d => d.dir = SlotDir.Input).length = 0 ∧
    (NormalizeNode.new.slots.filter fun d => d.dir = SlotDir.Output).length = 2 ∧
    NormalizeNode.new.eval [] = .error (.GraphEvalError
      "Unexpected input slot count to NormalizeNode::eval() not equal to one.") ∧
    NormalizeNode.new.eval [Expr.LiteralExpr "3"] =
      .ok [Expr.UnaryNumericOpExpr (Expr.LiteralExpr "3") UnaryNumericOperator.Normalize] :=
  ⟨rfl, rfl, rfl, rfl⟩

/-- C3: refuted direction table — `NormalizeNode::new` declares BOTH of its
slots with direction `Output` (the slot named "in" included), not one input
and one output. -/
theorem c3_normalize_slot_directions :
    NormalizeNode.new.slots.map SlotDef.dir = [SlotDir.Output, SlotDir.Output] :=
  rfl

/-- C5: every binary-arithmetic node, on exactly two inputs, returns the single
corresponding binary-operator expression with the first input as left child
and the second as right child, rendering as the parenthesised children joined
by the operator; on zero or one input it fails with a `GraphEvalError`. -/
theorem c5_binary_eval :
    (∀ l r : Expr,
      AddNode.new.eval [l, r] = .ok [Expr.AddExpr l r] ∧
      (Expr.AddExpr l r).to_wgsl_string =
        "(" ++ l.to_wgsl_string ++ ") + (" ++ r.to_wgsl_string ++ ")" ∧
      SubNode.new.eval [l, r] = .ok [Expr.SubExpr l r] ∧
      (Expr.SubExpr l r).to_wgsl_string =
        "(" ++ l.to_wgsl_string ++ ") - (" ++ r.to_wgsl_string ++ ")" ∧
      MulNode.new.eval [l, r] = .ok [Expr.MulExpr l r] ∧
      (Expr.MulExpr l r).to_wgsl_string =
        "(" ++ l.to_wgsl_string ++ ") * (" ++ r.to_wgsl_string ++ ")" ∧
      DivNode.new.eval [l, r] = .ok [Expr.DivExpr l r] ∧
      (Expr.DivExpr l r).to_wgsl_string =
        "(" ++ l.to_wgsl_string ++ ") / (" ++ r.to_wgsl_string ++ ")") ∧
    (∀ xs : List Expr, xs.length = 0 ∨ xs.length = 1 →
      (∃ m, AddNode.new.eval xs = .error (.GraphEvalError m)) ∧
      (∃ m, SubNode.new.eval xs = .error (.GraphEvalError m)) ∧
      (∃ m, MulNode.new.eval xs = .error (.GraphEvalError m)) ∧
      (∃ m, DivNode.new.eval xs = .error (.GraphEvalError m))) := by
  constructor
  · intro l r
    exact ⟨rfl, rfl, rfl, rfl, rfl, rfl, rfl, rfl⟩
  · intro xs hxs
    rcases xs with _ | ⟨a, _ | ⟨b, t⟩⟩
    · exact ⟨⟨_, rfl⟩, ⟨_, rfl⟩, ⟨_, rfl⟩, ⟨_, rfl⟩⟩
    · exact ⟨⟨_, rfl⟩, ⟨_, rfl⟩, ⟨_, rfl⟩, ⟨_, rfl⟩⟩
    · rcases hxs with h | h <;> simp at h

/-- C5 witness: `Add` on the literals 3 and 2 succeeds and renders
"(3) + (2)"; `Div` on the empty input vector fails with a graph evaluation
error. -/
theorem c5_binary_eval_witness :
    AddNode.new.eval [Expr.LiteralExpr "3", Expr.LiteralExpr "2"] =
      .ok [Expr.AddExpr (Expr.LiteralExpr "3") (Expr.LiteralExpr "2")] ∧
    (Expr.AddExpr (Expr.LiteralExpr "3") (Expr.LiteralExpr "2")).to_wgsl_string =
      "(3) + (2)" ∧
    (∃ m, DivNode.new.eval [] = .error (.GraphEvalError m)) :=
  ⟨(c5_binary_eval.1 (Expr.LiteralExpr "3") (Expr.LiteralExpr "2")).1,
   ((c5_binary_eval.1 (Expr.LiteralExpr "3") (Expr.LiteralExpr "2")).2.1).trans (by decide),
   (c5_binary_eval.2 [] (Or.inl rfl)).2.2.2⟩

/-- C10: `add_node` on a graph holding `n` nodes and `m` slots returns node id
`n + 1` (zero-based index `n`), appends the node, and appends one slot per
declaration carrying the contiguous ascending one-based ids
`m + 1, ..., m + k` in declaration order, each owned by the new node with an
empty link list; all previously assigned nodes and slots are unchanged
(they form the untouched prefix of both arenas). -/
theorem c10_dense_ids (g : Graph) (n : GNode) :
    (g.add_node n).1 = g.nodes.length + 1 ∧
    NodeId.index (g.add_node n).1 = g.nodes.length ∧
    (g.add_node n).2.nodes = g.nodes ++ [n] ∧
    (g.add_node n).2.slots = g.slots ++ mkSlots (g.nodes.length + 1) g.slots.length n.slots ∧
    (mkSlots (g.nodes.length + 1) g.slots.length n.slots).map Slot.id =
      (List.range n.slots.length).map (fun j => g.slots.length + 1 + j) ∧
    (mkSlots (g.nodes.length + 1) g.slots.length n.slots).map Slot.sdef = n.slots ∧
    (mkSlots (g.nodes.length + 1) g.slots.length n.slots).map Slot.node_id =
      n.slots.map (fun _ => g.nodes.length + 1) ∧
    (mkSlots (g.nodes.length + 1) g.slots.length n.slots).map Slot.linked_slots =
      n.slots.map (fun _ => ([] : List Nat)) := by
  refine ⟨rfl, by simp [NodeId.index, Graph.add_node], by simp [Graph.add_node],
    by simp [Graph.add_node, addSlotsLoop_eq], ?_,
    mkSlots_map_sdef _ _ _, mkSlots_map_node_id _ _ _, mkSlots_map_linked _ _ _⟩
  rw [mkSlots_map_id, declared_ids_eq_range]

lemma reachable_exGraph0 : Reachable exGraph0 :=
  Reachable.add_node Graph.new (GNode.add AddNode.new) Reachable.new

lemma reachable_exGraph1 : Reachable exGraph1 :=
  Reachable.add_node exGraph0 (GNode.add AddNode.new) reachable_exGraph0

lemma link31_ok : exGraph1.link 3 1 = .ok c1g3 := rfl

lemma reachable_c1g3 : Reachable c1g3 :=
  Reachable.link exGraph1 c1g3 3 1 reachable_exGraph1 (by decide) (by decide) link31_ok

lemma link61_ok : c1g3.link 6 1 = .ok c1g4 := rfl

lemma reachable_c1g4 : Reachable c1g4 :=
  Reachable.link c1g3 c1g4 6 1 reachable_c1g3 (by decide) (by decide) link61_ok

/-- C1 counterexample: on the reachable two-`AddNode` graph, `link(3, 1)`
followed by the rewiring `link(6, 1)` leaves input slot 1 with the single
source 6, while slot 1 still appears in the fan-out of output slot 3.  The
two-sided iff fails (slot 3 lists 1, but 1's source is 6 ≠ 3), refuting in
particular the claim that after the second link no output other than the
source still lists the input. -/
theorem c1_two_sided_counterexample :
    exGraph1.link 3 1 = .ok c1g3 ∧
    c1g3.link 6 1 = .ok c1g4 ∧
    Reachable c1g4 ∧
    c1g4.slot_dir 1 = some SlotDir.Input ∧
    c1g4.slot_dir 3 = some SlotDir.Output ∧
    c1g4.linked_of 1 = [6] ∧
    (1 : Nat) ∈ c1g4.linked_of 3 ∧
    (3 : Nat) ≠ 6 :=
  ⟨link31_ok, link61_ok, reachable_c1g4, rfl, rfl, rfl, by decide, by decide⟩

/-- C1 amended: in every reachable graph state the one-sided invariant holds —
an input slot records at most one source, and every source it records is a
valid output slot whose fan-out lists the input back.  (The converse
direction, that an entry in a fan-out list is always the current source of
that input, fails after rewiring, as the counterexample shows.) -/
theorem c1_one_sided_invariant (g : Graph) (h : Reachable g) (i : Nat) (h1i : 1 ≤ i)
    (hi : g.slot_dir i = some SlotDir.Input) :
    (g.linked_of i).length ≤ 1 ∧
    ∀ o ∈ g.linked_of i, 1 ≤ o ∧ g.slot_dir o = some SlotDir.Output ∧ i ∈ g.linked_of o := by
  have hwf := wf_of_reachable h
  obtain ⟨s, hs, hd⟩ := slot_dir_eq_some hi
  rw [linked_of_eq hs]
  refine ⟨hwf.inputs_card (i - 1) s hs hd, ?_⟩
  intro o ho
  obtain ⟨h1, t, ht, htd, htm⟩ := hwf.inputs_src (i - 1) s hs hd o ho
  have hii : i - 1 + 1 = i := by omega
  rw [hii] at htm
  refine ⟨h1, ?_, ?_⟩
  · rw [slot_dir_of_get? ht, htd]
  · rw [linked_of_eq ht]
    exact htm

/-- C1 witness: the one-sided invariant evaluated on the reachable rewired
graph `c1g4` at input slot 1. -/
theorem c1_one_sided_invariant_witness : (c1g4.linked_of 1).length ≤ 1 :=
  (c1_one_sided_invariant c1g4 reachable_c1g4 1 (by decide) (by decide)).1

/-- C4 counterexample: on `exGraph1` (slots 3 and 6 both outputs, slot 3 with
an empty fan-out), `link(3, 6)` fails — but at the point of failure the
fan-out of slot 3 has already been updated to `[6]`, so the link state is NOT
unchanged when the input-direction assertion fires. -/
theorem c4_fail_fast_counterexample :
    exGraph1.slot_dir 3 = some SlotDir.Output ∧
    exGraph1.slot_dir 6 = some SlotDir.Output ∧
    exGraph1.linked_of 3 = [] ∧
    exGraph1.link 3 6 = .error c4err ∧
    c4err.linked_of 3 = [6] :=
  ⟨rfl, rfl, rfl, rfl, rfl⟩

/-- C4 amended: when the slot at `output` is an output slot but the slot at
`input` is not an input slot, `link` fails fast (panics before updating the
input side), but at the point of failure the output's fan-out has already
been updated by `Slot::link_to`; every slot other than the output is
unchanged. -/
theorem c4_fail_after_fanout_update (g : Graph) (o i : Nat) (h1o : 1 ≤ o)
    (ho : g.slot_dir o = some SlotDir.Output) (hi : g.slot_dir i = some SlotDir.Output) :
    ∃ g' : Graph, g.link o i = .error g' ∧
      g'.linked_of o =
        (if i ∈ g.linked_of o then g.linked_of o else g.linked_of o ++ [i]) ∧
      (∀ t : Nat, 1 ≤ t → t ≠ o → g'.linked_of t = g.linked_of t) ∧
      g'.nodes = g.nodes ∧ g'.slots.length = g.slots.length := by
  obtain ⟨os, hos, hod⟩ := slot_dir_eq_some ho
  obtain ⟨isl, his, hid⟩ := slot_dir_eq_some hi
  have hoB : o - 1 < g.slots.length := (List.get?_eq_some.mp hos).1
  refine ⟨⟨g.nodes, g.slots.set (o - 1) (linkToSlot os i)⟩,
    link_err hos his hod hid, ?_, ?_, rfl, by simp⟩
  · have hq : (g.slots.set (o - 1) (linkToSlot os i)).get? (o - 1) =
        some (linkToSlot os i) := by
      rw [get?_set g.slots (o - 1) _ hoB, if_pos rfl]
    have h1 : (⟨g.nodes, g.slots.set (o - 1) (linkToSlot os i)⟩ : Graph).linked_of o =
        (linkToSlot os i).linked_slots := linked_of_eq hq
    rw [h1, linked_of_eq hos]
    rfl
  · intro t h1t hto
    have hne : t - 1 ≠ o - 1 := by omega
    have hq : (g.slots.set (o - 1) (linkToSlot os i)).get? (t - 1) =
        g.slots.get? (t - 1) := by
      rw [get?_set g.slots (o - 1) _ hoB, if_neg hne]
    show (match (g.slots.set (o - 1) (linkToSlot os i)).get? (t - 1) with
      | some s => s.linked_slots
      | none => []) = g.linked_of t
    rw [hq]
    rfl

/-- C4 witness: the amended statement evaluated on `exGraph1` with output
slot 3 and (output, hence non-input) slot 6. -/
theorem c4_fail_after_fanout_update_witness :
    ∃ g' : Graph, exGraph1.link 3 6 = .error g' ∧
      g'.linked_of 3 =
        (if (6 : Nat) ∈ exGraph1.linked_of 3 then exGraph1.linked_of 3
         else exGraph1.linked_of 3 ++ [6]) ∧
      (∀ t : Nat, 1 ≤ t → t ≠ 3 → g'.linked_of t = exGraph1.linked_of t) ∧
      g'.nodes = exGraph1.nodes ∧ g'.slots.length = exGraph1.slots.length :=
  c4_fail_after_fanout_update exGraph1 3 6 (by decide) (by decide) (by decide)

/-- C6: on any reachable graph, `link(o, i)` with a valid output `o` and valid
input `i` succeeds; afterwards `i`'s link list is exactly `[o]`, `i` is in
`o`'s fan-out, the fan-out holds no duplicate entry for `i`, linking the same
pair again returns the identical state, and linking any second valid output
`o2` to the same input leaves the input with exactly the one source `o2`. -/
theorem c6_link_postconditions (g : Graph) (h : Reachable g) (o i : Nat)
    (h1o : 1 ≤ o) (h1i : 1 ≤ i)
    (ho : g.slot_dir o = some SlotDir.Output) (hi : g.slot_dir i = some SlotDir.Input) :
    ∃ g' : Graph, g.link o i = .ok g' ∧
      g'.linked_of i = [o] ∧
      i ∈ g'.linked_of o ∧
      (g'.linked_of o).count i = 1 ∧
      g'.link o i = .ok g' ∧
      ∀ o2 : Nat, 1 ≤ o2 → g'.slot_dir o2 = some SlotDir.Output →
        ∃ g'' : Graph, g'.link o2 i = .ok g'' ∧ g''.linked_of i = [o2] := by
  have hwf := wf_of_reachable h
  obtain ⟨os, hos, hod⟩ := slot_dir_eq_some ho
  obtain ⟨isl, his, hid⟩ := slot_dir_eq_some hi
  have hcard := hwf.inputs_card (i - 1) isl his hid
  have hoB : o - 1 < g.slots.length := (List.get?_eq_some.mp hos).1
  have hiB : i - 1 < g.slots.length := (List.get?_eq_some.mp his).1
  have hne : o - 1 ≠ i - 1 := by
    intro he
    rw [he, his] at hos
    obtain rfl := Option.some.inj hos
    rw [hod] at hid
    cases hid
  have hok := link_ok2 hos his hod hid
  have hg : ∀ j : Nat,
      ((g.slots.set (o - 1) (linkToSlot os i)).set (i - 1) (linkInputSlot isl o)).get? j =
      if j = i - 1 then some (linkInputSlot isl o)
      else if j = o - 1 then some (linkToSlot os i) else g.slots.get? j :=
    get?_set_set g.slots (o - 1) (i - 1) _ _ hoB hiB
  have hgi : (⟨g.nodes,
      (g.slots.set (o - 1) (linkToSlot os i)).set (i - 1) (linkInputSlot isl o)⟩ :
      Graph).slots.get? (i - 1) = some (linkInputSlot isl o) := by
    rw [hg, if_pos rfl]
  have hgo : (⟨g.nodes,
      (g.slots.set (o - 1) (linkToSlot os i)).set (i - 1) (linkInputSlot isl o)⟩ :
      Graph).slots.get? (o - 1) = some (linkToSlot os i) := by
    rw [hg, if_neg hne, if_pos rfl]
  refine ⟨_, hok, ?_, ?_, ?_, ?_, ?_⟩
  · rw [linked_of_eq hgi, linkInputSlot_linked hcard]
  · rw [linked_of_eq hgo]
    exact mem_linkToSlot_self
  · rw [linked_of_eq hgo]
    exact List.count_eq_one_of_mem
      (linkToSlot_nodup (hwf.outputs_nodup (o - 1) os hos hod)) mem_linkToSlot_self
  · have hok2 := link_ok2 hgo hgi (by rw [linkToSlot_dir]; exact hod)
      (by rw [linkInputSlot_dir]; exact hid)
    rw [hok2, linkToSlot_of_mem mem_linkToSlot_self, linkInputSlot_twice,
      set_of_get? hgo, set_of_get? hgi]
  · intro o2 h1o2 ho2
    obtain ⟨os2, hos2, hod2⟩ := slot_dir_eq_some ho2
    have ho2B : o2 - 1 <
        ((g.slots.set (o - 1) (linkToSlot os i)).set (i - 1) (linkInputSlot isl o)).length :=
      (List.get?_eq_some.mp hos2).1
    have hiB2 : i - 1 <
        ((g.slots.set (o - 1) (linkToSlot os i)).set (i - 1) (linkInputSlot isl o)).length := by
      simpa using hiB
    have hne2 : o2 - 1 ≠ i - 1 := by
      intro he
      rw [he, hgi] at hos2
      obtain rfl := Option.some.inj hos2
      rw [linkInputSlot_dir, hid] at hod2
      cases hod2
    have hok3 := link_ok2 hos2 hgi hod2 (by rw [linkInputSlot_dir]; exact hid)
    refine ⟨_, hok3, ?_⟩
    have hq : ((((g.slots.set (o - 1) (linkToSlot os i)).set (i - 1)
        (linkInputSlot isl o)).set (o2 - 1) (linkToSlot os2 i)).set (i - 1)
        (linkInputSlot (linkInputSlot isl o) o2)).get? (i - 1) =
        some (linkInputSlot (linkInputSlot isl o) o2) := by
      rw [get?_set_set _ (o2 - 1) (i - 1) _ _ ho2B hiB2, if_pos rfl]
    rw [linked_of_eq hq, linkInputSlot_twice, linkInputSlot_linked hcard]

/-- C6 witness: the link postconditions evaluated on the reachable two-node
graph `exGraph1` with output slot 3 and input slot 1. -/
theorem c6_link_postconditions_witness :
    ∃ g' : Graph, exGraph1.link 3 1 = .ok g' ∧
      g'.linked_of 1 = [3] ∧
      (1 : Nat) ∈ g'.linked_of 3 ∧
      (g'.linked_of 3).count 1 = 1 ∧
      g'.link 3 1 = .ok g' ∧
      ∀ o2 : Nat, 1 ≤ o2 → g'.slot_dir o2 = some SlotDir.Output →
        ∃ g'' : Graph, g'.link o2 1 = .ok g'' ∧ g''.linked_of 1 = [o2] :=
  c6_link_postconditions exGraph1 reachable_exGraph1 3 1 (by decide) (by decide)
    (by decide) (by decide)

/-- C7: on any reachable graph, `add_node` followed immediately by
`slots` / `input_slots` / `output_slots` on the returned id yields exactly one
slot id per declared `SlotDef` in declaration order, with `input_slots`
holding exactly the ids of the `Input`-direction declarations and
`output_slots` exactly those of the `Output`-direction declarations. -/
theorem c7_round_trip (g : Graph) (h : Reachable g) (n : GNode) :
    (g.add_node n).2.node_slots (g.add_node n).1 = declared_ids g.slots.length n.slots ∧
    (g.add_node n).2.input_slots (g.add_node n).1 =
      declared_ids_of_dir g.slots.length SlotDir.Input n.slots ∧
    (g.add_node n).2.output_slots (g.add_node n).1 =
      declared_ids_of_dir g.slots.length SlotDir.Output n.slots := by
  have hwf := wf_of_reachable h
  have hslots : (g.add_node n).2.slots =
      g.slots ++ mkSlots (g.nodes.length + 1) g.slots.length n.slots := by
    simp [Graph.add_node, addSlotsLoop_eq]
  have hold : ∀ s ∈ g.slots, ¬s.node_id = g.nodes.length + 1 := by
    intro s hsm
    rcases List.mem_iff_get?.mp hsm with ⟨j, hj⟩
    have := hwf.owner j s hj
    omega
  have hid1 : (g.add_node n).1 = g.nodes.length + 1 := rfl
  refine ⟨?_, ?_, ?_⟩
  · show (g.add_node n).2.slots.filterMap _ = _
    rw [hslots, hid1, List.filterMap_append,
      filterMap_none _ g.slots (fun s hsm => by rw [if_neg (hold s hsm)]),
      List.nil_append, mkSlots_filterMap_node]
  · show (g.add_node n).2.slots.filterMap _ = _
    rw [hslots, hid1, List.filterMap_append,
      filterMap_none _ g.slots (fun s hsm => by
        rw [if_neg]
        intro hc
        exact hold s hsm hc.1),
      List.nil_append, mkSlots_filterMap_input]
  · show (g.add_node n).2.slots.filterMap _ = _
    rw [hslots, hid1, List.filterMap_append,
      filterMap_none _ g.slots (fun s hsm => by
        rw [if_neg]
        intro hc
        exact hold s hsm hc.1),
      List.nil_append, mkSlots_filterMap_output]

/-- C7 witness: the round trip evaluated for an `AddNode` added to the
one-node graph `exGraph0`. -/
theorem c7_round_trip_witness :
    (exGraph0.add_node (GNode.add AddNode.new)).2.node_slots
      (exGraph0.add_node (GNode.add AddNode.new)).1 =
      declared_ids exGraph0.slots.length (GNode.add AddNode.new).slots :=
  (c7_round_trip exGraph0 reachable_exGraph0 (GNode.add AddNode.new)).1

/-- C8: `unlink(o, i)` on a valid output `o` and valid input `i` is a strict
no-op returning the unchanged graph when `i` is not in `o`'s fan-out; when it
is, the call removes `i` from `o`'s fan-out, clears `i`'s link list, and
leaves the link state of every other slot unchanged. -/
theorem c8_unlink_cases (g : Graph) (o i : Nat) (h1o : 1 ≤ o) (h1i : 1 ≤ i)
    (ho : g.slot_dir o = some SlotDir.Output) (hi : g.slot_dir i = some SlotDir.Input) :
    (i ∉ g.linked_of o → g.unlink o i = .ok g) ∧
    (i ∈ g.linked_of o → ∃ g' : Graph, g.unlink o i = .ok g' ∧
      g'.linked_of o = (g.linked_of o).erase i ∧
      g'.linked_of i = [] ∧
      (∀ t : Nat, 1 ≤ t → t ≠ o → t ≠ i → g'.linked_of t = g.linked_of t) ∧
      g'.nodes = g.nodes ∧ g'.slots.length = g.slots.length) := by
  obtain ⟨os, hos, hod⟩ := slot_dir_eq_some ho
  obtain ⟨isl, his, hid⟩ := slot_dir_eq_some hi
  have hoB : o - 1 < g.slots.length := (List.get?_eq_some.mp hos).1
  have hiB : i - 1 < g.slots.length := (List.get?_eq_some.mp his).1
  have hne : o - 1 ≠ i - 1 := by
    intro he
    rw [he, his] at hos
    obtain rfl := Option.some.inj hos
    rw [hod] at hid
    cases hid
  constructor
  · intro hm
    rw [linked_of_eq hos] at hm
    exact unlink_noop hos hod hm
  · intro hm
    rw [linked_of_eq hos] at hm
    have hok := unlink_hit hos his hod hid hm
    have hg : ∀ j : Nat,
        ((g.slots.set (o - 1) (eraseSlot os i)).set (i - 1) (clearSlot isl)).get? j =
        if j = i - 1 then some (clearSlot isl)
        else if j = o - 1 then some (eraseSlot os i) else g.slots.get? j :=
      get?_set_set g.slots (o - 1) (i - 1) _ _ hoB hiB
    refine ⟨_, hok, ?_, ?_, ?_, rfl, by simp⟩
    · have hq : (⟨g.nodes, (g.slots.set (o - 1) (eraseSlot os i)).set (i - 1)
          (clearSlot isl)⟩ : Graph).slots.get? (o - 1) = some (eraseSlot os i) := by
        rw [hg, if_neg hne, if_pos rfl]
      rw [linked_of_eq hq, linked_of_eq hos]
      rfl
    · have hq : (⟨g.nodes, (g.slots.set (o - 1) (eraseSlot os i)).set (i - 1)
          (clearSlot isl)⟩ : Graph).slots.get? (i - 1) = some (clearSlot isl) := by
        rw [hg, if_pos rfl]
      rw [linked_of_eq hq]
      rfl
    · intro t h1t hto hti
      have hne1 : t - 1 ≠ o - 1 := by omega
      have hne2 : t - 1 ≠ i - 1 := by omega
      have hq : ((g.slots.set (o - 1) (eraseSlot os i)).set (i - 1)
          (clearSlot isl)).get? (t - 1) = g.slots.get? (t - 1) := by
        rw [hg, if_neg hne2, if_neg hne1]
      show (match ((g.slots.set (o - 1) (eraseSlot os i)).set (i - 1)
          (clearSlot isl)).get? (t - 1) with
        | some s => s.linked_slots
        | none => []) = g.linked_of t
      rw [hq]
      rfl

/-- C8 witness: both cases evaluated on the linked graph `c1g3` (output slot 3
linked to input slot 1, input slot 4 unlinked). -/
theorem c8_unlink_cases_witness :
    ((1 : Nat) ∉ c1g3.linked_of 3 → c1g3.unlink 3 1 = .ok c1g3) ∧
    ((1 : Nat) ∈ c1g3.linked_of 3 → ∃ g' : Graph, c1g3.unlink 3 1 = .ok g' ∧
      g'.linked_of 3 = (c1g3.linked_of 3).erase 1 ∧
      g'.linked_of 1 = [] ∧
      (∀ t : Nat, 1 ≤ t → t ≠ 3 → t ≠ 1 → g'.linked_of t = c1g3.linked_of t) ∧
      g'.nodes = c1g3.nodes ∧ g'.slots.length = c1g3.slots.length) :=
  c8_unlink_cases c1g3 3 1 (by decide) (by decide) (by decide) (by decide)

/-- C9: on any reachable graph and valid slot id `s` (input or output),
`unlink_all(s)` succeeds, leaves `s` with an empty link list, and every slot
that was in `s`'s link list before the call no longer contains `s` in its own
link list. -/
theorem c9_unlink_all_severs (g : Graph) (h : Reachable g) (s : Nat) (h1s : 1 ≤ s)
    (hs : s - 1 < g.slots.length) :
    ∃ g' : Graph, g.unlink_all s = .ok g' ∧
      g'.linked_of s = [] ∧
      ∀ r ∈ g.linked_of s, s ∉ g'.linked_of r := by
  have hwf := wf_of_reachable h
  obtain ⟨g2, hok, hwf2, hn, hl, hempty, hrem⟩ := unlink_all_spec hwf h1s hs
  have hsq : g.slots.get? (s - 1) = some (g.slots.get ⟨s - 1, hs⟩) :=
    List.get?_eq_some.mpr ⟨hs, rfl⟩
  refine ⟨g2, hok, ?_, ?_⟩
  · have hb2 : s - 1 < g2.slots.length := by rw [hl]; exact hs
    have hq2 : g2.slots.get? (s - 1) = some (g2.slots.get ⟨s - 1, hb2⟩) :=
      List.get?_eq_some.mpr ⟨hb2, rfl⟩
    rw [linked_of_eq hq2]
    exact hempty _ hq2
  · intro r hr
    rw [linked_of_eq hsq] at hr
    have hrB : r - 1 < g.slots.length := by
      rcases dir_or (g.slots.get ⟨s - 1, hs⟩) with hd | hd
      · obtain ⟨-, t, ht, -, -⟩ := hwf.inputs_src (s - 1) _ hsq hd r hr
        exact (List.get?_eq_some.mp ht).1
      · obtain ⟨-, t, ht, -⟩ := hwf.outputs_tgt (s - 1) _ hsq hd r hr
        exact (List.get?_eq_some.mp ht).1
    have hrB2 : r - 1 < g2.slots.length := by rw [hl]; exact hrB
    have hq : g2.slots.get? (r - 1) = some (g2.slots.get ⟨r - 1, hrB2⟩) :=
      List.get?_eq_some.mpr ⟨hrB2, rfl⟩
    rw [linked_of_eq hq]
    exact hrem r hr _ hq

/-- C9 witness: `unlink_all` on output slot 3 of the linked graph `c1g3`. -/
theorem c9_unlink_all_severs_witness :
    ∃ g' : Graph, c1g3.unlink_all 3 = .ok g' ∧
      g'.linked_of 3 = [] ∧
      ∀ r ∈ c1g3.linked_of 3, (3 : Nat) ∉ g'.linked_of r :=
  c9_unlink_all_severs c1g3 reachable_c1g3 3 (by decide) (by decide)

end Hanabi
